import Mathlib

/-!
Verification of the assignment-reconciliation core of the lab-manager
program (`lab_manager.py`).  The Python code is shallowly embedded:

* CSV cell values are modelled as `List Char` (`Str`);
* Python `set[int]` is modelled as `Finset Nat`;
* the on-disk CSV file is modelled as `Csv` (header plus raw rows), with
  `Option Csv` standing for a possibly-missing file;
* the MD5 hash used by `calculate_subnet_id` is abstracted as a parameter
  `hash : Str → Nat` standing for `int(hashlib.md5(sid).hexdigest(), 16)`;
  every theorem below is proved for an arbitrary such function;
* unbounded `while` loops are embedded with fuel that is proved sufficient.

Definitions follow the Python source function by function; the few places
where a Python library behaviour (e.g. `csv.DictReader`) is modelled are
noted in the corresponding doc comment.
-/

namespace LabMan

/-- Python strings, modelled as character lists. -/
abbrev Str := List Char

/-- Characters Python's `str.strip()` removes (ASCII whitespace). -/
def pyIsSpace (c : Char) : Bool :=
  c = ' ' || c = '\t' || c = '\n' || c = '\r' || c = '\x0b' || c = '\x0c'

/-- Model of Python `str.strip()`. -/
def pyStrip (s : Str) : Str :=
  ((s.dropWhile pyIsSpace).reverse.dropWhile pyIsSpace).reverse

/-- Model of Python `str.isdigit()` (restricted to ASCII digit strings,
which is all the program ever writes). -/
def pyIsDigit (s : Str) : Bool :=
  !s.isEmpty && s.all (fun c => '0' ≤ c && c ≤ '9')

/-- Model of Python `int(...)` on a digit string. -/
def decimalToNat (s : Str) : Nat :=
  s.foldl (fun a c => a * 10 + (c.toNat - 48)) 0

/-- Decimal digit characters, for `str(int)`. -/
def digitChar (d : Nat) : Char :=
  match d with
  | 0 => '0' | 1 => '1' | 2 => '2' | 3 => '3' | 4 => '4'
  | 5 => '5' | 6 => '6' | 7 => '7' | 8 => '8' | _ => '9'

/-- Decimal printing, structurally recursive on fuel so that it reduces
inside the kernel; `natToDecimal` supplies fuel proved sufficient. -/
def natToDecimalAux : Nat → Nat → List Char
  | _, 0 => []
  | n, fuel+1 =>
      if n < 10 then [digitChar n]
      else natToDecimalAux (n / 10) fuel ++ [digitChar (n % 10)]

/-- Model of Python `str(...)` on a nonnegative `int`. -/
def natToDecimal (n : Nat) : Str := natToDecimalAux n (n + 1)

/-- One roster record as produced by `read_students_csv`
(`StudentData` in the source): `port = 0` is the unassigned sentinel,
`subnet_id = none` models Python `None`. -/
structure Student where
  student_id : Str
  student_name : Str
  port : Nat
  subnet_id : Option Nat
deriving Repr, DecidableEq

/-- The on-disk roster file: header row plus raw data rows. -/
structure Csv where
  header : List Str
  rows : List (List Str)
deriving Repr, DecidableEq

def sID : Str := "student_id".data
def sName : Str := "student_name".data
def sPort : Str := "port".data
def sSubnet : Str := "subnet_id".data

/-- The key/value bindings `csv.DictReader` builds for one row:
`dict(zip(fieldnames, row))`, with fieldnames beyond the row's length
bound to `None` (modelled as `none`). -/
def rowBindings (header row : List Str) : List (Str × Option Str) :=
  (header.zip row).map (fun p => (p.1, some p.2))
    ++ (header.drop row.length).map (fun h => (h, none))

/-- `row[col]` under `csv.DictReader` semantics: the *last* binding of a
column name wins (Python `dict` update order); `none` covers both a
missing column and a `None` value, which the source treats identically at
every use site. -/
def dictGet (header row : List Str) (col : Str) : Option Str :=
  ((rowBindings header row).reverse.lookup col).join

/-- Port parsing in `read_students_csv`: digits only and positive,
otherwise the sentinel `0`. -/
def parse_port_cell (v : Option Str) : Nat :=
  let pv := pyStrip (v.getD [])
  if pv ≠ [] ∧ pyIsDigit pv ∧ 0 < decimalToNat pv then decimalToNat pv else 0

/-- Subnet parsing in `read_students_csv`: digits only and positive,
otherwise the sentinel `none`. -/
def parse_subnet_cell (v : Option Str) : Option Nat :=
  let sv := pyStrip (v.getD [])
  if sv ≠ [] ∧ pyIsDigit sv ∧ 0 < decimalToNat sv then some (decimalToNat sv) else none

/-- Parsing one roster row (the loop body of `read_students_csv`).
`none` models the row raising (`KeyError` on a missing `student_id` /
`student_name` column or `.strip()` on `None`), which makes the whole
read return `[]`. -/
def parse_row (header row : List Str) : Option Student :=
  match dictGet header row sID, dictGet header row sName with
  | some i, some n =>
      some { student_id := pyStrip i
             student_name := pyStrip n
             port := parse_port_cell (dictGet header row sPort)
             subnet_id := parse_subnet_cell (dictGet header row sSubnet) }
  | _, _ => none

/-- `read_students_csv(csv_file, update_if_changed=False)`: parse all rows;
a missing file or any row error yields the empty roster (fails softly). -/
def readStudentsPure (disk : Option Csv) : List Student :=
  match disk with
  | none => []
  | some c => (c.rows.mapM (parse_row c.header)).getD []

/-! ### Port allocator (`auto_assign_port`) -/

/-- The `while port in existing_ports: port += 1` loop of
`auto_assign_port`, embedded with fuel.  The fuel chosen in
`auto_assign_port` is proved sufficient (`auto_assign_port_spec`). -/
def auto_assign_port_loop (excluded : Finset Nat) : Nat → Nat → Nat
  | port, 0 => port
  | port, fuel+1 =>
      if port ∈ excluded then auto_assign_port_loop excluded (port+1) fuel else port

/-- `auto_assign_port`: first-fit port search starting at 2222. -/
def auto_assign_port (excluded : Finset Nat) : Nat :=
  auto_assign_port_loop excluded 2222 (excluded.card + 1)

/-! ### Subnet allocator (`calculate_subnet_id`) -/

/-- One wraparound increment of the subnet probe: `subnet_id % 254 + 1`. -/
def nextSubnet (x : Nat) : Nat := x % 254 + 1

/-- The collision-probing `while` loop of `calculate_subnet_id`, embedded
with fuel: while the current value is excluded, step forward; if the step
returns to the natural subnet, stop and return it.  Fuel 254 is proved
sufficient (`calculate_subnet_id_eq_probeSpec`). -/
def subnetSearch (used : Finset Nat) (base : Nat) : Nat → Nat → Nat
  | cur, 0 => cur
  | cur, fuel+1 =>
      if cur ∈ used then
        let nxt := nextSubnet cur
        if nxt = base then nxt else subnetSearch used base nxt fuel
  else cur

/-- `calculate_subnet_id`: hash-derived natural subnet plus collision
probing.  `hash` abstracts `int(hashlib.md5(student_id).hexdigest(), 16)`. -/
def calculate_subnet_id (hash : Str → Nat) (student_id : Str) (used_subnets : Finset Nat) : Nat :=
  let base_subnet := hash student_id % 254 + 1
  subnetSearch used_subnets base_subnet base_subnet 254

/-! ### Used-value scans (`get_used_ports`, `get_used_subnets`) -/

/-- `get_used_ports`: collect every digit-valued `port` cell `≥ 2222`
("only consider our SSH ports"); missing file yields the empty set. -/
def get_used_ports (disk : Option Csv) : Finset Nat :=
  match disk with
  | none => ∅
  | some c =>
      c.rows.foldl (fun acc row =>
        match dictGet c.header row sPort with
        | some v =>
            if v ≠ [] then
              let pv := pyStrip v
              if pv ≠ [] ∧ pyIsDigit pv then
                if 2222 ≤ decimalToNat pv then insert (decimalToNat pv) acc else acc
              else acc
            else acc
        | none => acc) ∅

/-- `get_used_subnets`: collect every digit-valued `subnet_id` cell
(no range filtering); missing file yields the empty set. -/
def get_used_subnets (disk : Option Csv) : Finset Nat :=
  match disk with
  | none => ∅
  | some c =>
      c.rows.foldl (fun acc row =>
        match dictGet c.header row sSubnet with
        | some v =>
            if v ≠ [] then
              let sv := pyStrip v
              if sv ≠ [] ∧ pyIsDigit sv then insert (decimalToNat sv) acc
              else acc
            else acc
        | none => acc) ∅

/-! ### Roster write-back (`write_students_csv`) -/

def base_fields : List Str := [sID, sName, sPort, sSubnet]

/-- Column order for a rewrite: the existing file's header (if any),
extended with `port` / `subnet_id` when missing; otherwise the default. -/
def write_fieldnames (disk : Option Csv) : List Str :=
  match disk with
  | some c =>
      if c.header ≠ [] then
        c.header ++ ([sPort, sSubnet].filter (fun col => col ∉ c.header))
      else base_fields
  | none => base_fields

/-- The cell written for a student under a given column: the four known
fields (ints via `str`, `None` as the empty string Python's `csv` module
emits), and the empty string for any extra column. -/
def student_cell (s : Student) (col : Str) : Str :=
  if col = sID then s.student_id
  else if col = sName then s.student_name
  else if col = sPort then natToDecimal s.port
  else if col = sSubnet then
    match s.subnet_id with
    | some v => natToDecimal v
    | none => []
  else []

/-- `write_students_csv`: full rewrite of the roster file.  (At every call
site reached in this development the fieldnames contain all four base
columns, so `csv.DictWriter`'s extras check cannot fire.) -/
def write_students_csv (disk : Option Csv) (students : List Student) : Csv :=
  let fns := write_fieldnames disk
  { header := fns, rows := students.map (fun s => fns.map (student_cell s)) }

/-! ### Assignment reconciler (`ensure_assignments`) -/

/-- `port_counts[p]` after the ownership scan: the number of roster
records whose (positive) port equals `p`. -/
def port_counts (existing : List Student) (p : Nat) : Nat :=
  (existing.filter (fun s => 0 < s.port && s.port == p)).length

/-- `existing_port_owners[p]`: the first roster record holding port `p`
(the dictionary entry is set at count 1 and never overwritten). -/
def existing_port_owner (existing : List Student) (p : Nat) : Option Str :=
  (existing.find? (fun s => 0 < s.port && s.port == p)).map (·.student_id)

/-- `subnet_counts[q]`: records whose (truthy, non-`None`) subnet is `q`. -/
def subnet_counts (existing : List Student) (q : Nat) : Nat :=
  (existing.filter (fun s => s.subnet_id.getD 0 != 0 && s.subnet_id == some q)).length

/-- `existing_subnet_owners[q]`: first holder of subnet `q`. -/
def existing_subnet_owner (existing : List Student) (q : Nat) : Option Str :=
  (existing.find? (fun s => s.subnet_id.getD 0 != 0 && s.subnet_id == some q)).map
    (·.student_id)

/-- The `needs_new_port` decision chain of `ensure_assignments`. -/
def needs_new_port (existing : List Student) (used assigned : Finset Nat)
    (s : Student) : Bool :=
  if s.port = 0 then true
  else if s.port ∈ assigned then true
  else if 2 ≤ port_counts existing s.port then true
  else if s.port ∈ used then
    existing_port_owner existing s.port != some s.student_id
  else false

/-- The `needs_new_subnet` decision chain of `ensure_assignments`. -/
def needs_new_subnet (existing : List Student) (used assigned : Finset Nat)
    (s : Student) : Bool :=
  match s.subnet_id with
  | none => true
  | some v =>
      if v = 0 then true
      else if v ∈ assigned then true
      else if 2 ≤ subnet_counts existing v then true
      else if v ∈ used then
        existing_subnet_owner existing v != some s.student_id
      else false

/-- Mutable state of the per-record loop of `ensure_assignments`. -/
structure EnsureState where
  usedPorts : Finset Nat
  usedSubnets : Finset Nat
  assignedPorts : Finset Nat
  assignedSubnets : Finset Nat
  changed : Bool

/-- The per-record loop of `ensure_assignments` (lines 234–295): keep or
reallocate the port, then the subnet, threading the used/batch-claimed
sets and the change flag. -/
def ensure_loop (hash : Str → Nat) (existing : List Student) :
    List Student → EnsureState → List Student × EnsureState
  | [], st => ([], st)
  | s :: rest, st =>
      let np := needs_new_port existing st.usedPorts st.assignedPorts s
      let port' :=
        if np then auto_assign_port (st.usedPorts ∪ st.assignedPorts) else s.port
      let st1 : EnsureState :=
        { st with
          usedPorts := insert port' st.usedPorts
          assignedPorts := insert port' st.assignedPorts
          changed := st.changed || np }
      let ns := needs_new_subnet existing st1.usedSubnets st1.assignedSubnets s
      let subnet' :=
        if ns then
          some (calculate_subnet_id hash s.student_id
            (st1.usedSubnets ∪ st1.assignedSubnets))
        else s.subnet_id
      let st2 : EnsureState :=
        { st1 with
          usedSubnets := insert (subnet'.getD 0) st1.usedSubnets
          assignedSubnets := insert (subnet'.getD 0) st1.assignedSubnets
          changed := st1.changed || ns }
      let s' : Student := { s with port := port', subnet_id := subnet' }
      let res := ensure_loop hash existing rest st2
      (s' :: res.1, res.2)

/-- The merge step of `ensure_assignments` (lines 297–312): replace roster
records matched by `student_id` with the updated batch record (the batch's
*last* record for an id wins, as in the Python dict build), then append
batch records whose id is absent from the roster. -/
def merge_students (all updated : List Student) : List Student :=
  let replaced := all.map (fun t =>
    match updated.reverse.find? (fun u => u.student_id == t.student_id) with
    | some u => u
    | none => t)
  let existing_ids := all.map (·.student_id)
  replaced ++ updated.filter (fun u => decide (u.student_id ∉ existing_ids))

/-- `ensure_assignments`: the centralized assignment service.  Returns the
updated batch, the roster file after the call, and whether a write
happened. -/
def ensure_assignments (hash : Str → Nat) (students : List Student)
    (disk : Option Csv) : List Student × Option Csv × Bool :=
  if students = [] then (students, disk, false)
  else
    let used_ports := get_used_ports disk
    let used_subnets := get_used_subnets disk
    let existing := readStudentsPure disk
    let res :=
      ensure_loop hash existing students
        ⟨used_ports, used_subnets, ∅, ∅, false⟩
    if res.2.changed then
      let merged := merge_students (readStudentsPure disk) res.1
      (res.1, some (write_students_csv disk merged), true)
    else (res.1, disk, false)

/-- `read_students_csv` with its `update_if_changed` flag: parse, then
(with the default `True`) run the reconciler, which may rewrite the file. -/
def read_students_csv (hash : Str → Nat) (disk : Option Csv)
    (update_if_changed : Bool) : List Student × Option Csv × Bool :=
  match disk with
  | none => ([], none, false)
  | some c =>
      match c.rows.mapM (parse_row c.header) with
      | none => ([], some c, false)
      | some students =>
          if update_if_changed then ensure_assignments hash students (some c)
          else (students, some c, false)

/-! ### Environment orchestrator (`reconcile_with_csv`) -/

/-- A runtime command issued during reconciliation: tear down a student's
containers knowing only the id (`force_remove_student_containers`), or
bring up a student from their resolved record (`spin_up_student`). -/
inductive RuntimeOp where
  | remove (sid : Str)
  | add (s : Student)
deriving Repr, DecidableEq

/-- `expected_students[sid]`: the resolved record for an id (last record
with that id wins, as in the Python dict build). -/
def lookup_student (students : List Student) (sid : Str) : Student :=
  (students.reverse.find? (fun s => s.student_id == sid)).getD
    ⟨sid, [], 0, none⟩

/-- The orchestration core of `reconcile_with_csv` (lines 637–694), given
the resolved roster and the runtime state.  Python's sets are modelled as
deduplicated lists; `tearOk` / `upOk` give each runtime command's outcome.
Returns the sequence of issued commands and the aggregate success flag. -/
def reconcile_exec (students : List Student) (running_ids : List Str)
    (tearOk : Str → Bool) (upOk : Student → Bool) : List RuntimeOp × Bool :=
  if students = [] then ([], false)
  else
    let expected_ids := (students.map (·.student_id)).dedup
    let to_add := expected_ids.filter (fun e => decide (e ∉ running_ids))
    let to_remove := running_ids.dedup.filter (fun r => decide (r ∉ expected_ids))
    let ops := to_remove.map RuntimeOp.remove
      ++ to_add.map (fun e => RuntimeOp.add (lookup_student students e))
    let success := to_remove.all tearOk
      && to_add.all (fun e => upOk (lookup_student students e))
    (ops, success)

/-! ## Helper lemmas -/

theorem digitChar_toNat {d : Nat} (h : d < 10) : (digitChar d).toNat = 48 + d := by
  interval_cases d <;> rfl

theorem digitChar_digit {d : Nat} (h : d < 10) :
    ('0' ≤ digitChar d && digitChar d ≤ '9') = true := by
  interval_cases d <;> rfl

theorem digitChar_not_space {d : Nat} (h : d < 10) : pyIsSpace (digitChar d) = false := by
  interval_cases d <;> rfl

theorem natToDecimalAux_ne_nil {n fuel : Nat} (h : n < fuel) :
    natToDecimalAux n fuel ≠ [] := by
  cases fuel with
  | zero => omega
  | succ fuel =>
      rw [natToDecimalAux]
      split
      · simp
      · simp

theorem natToDecimal_ne_nil (n : Nat) : natToDecimal n ≠ [] :=
  natToDecimalAux_ne_nil (by omega)

theorem natToDecimalAux_mem :
    ∀ (fuel : Nat) {n : Nat} {c : Char}, n < fuel → c ∈ natToDecimalAux n fuel →
      ∃ d, d < 10 ∧ c = digitChar d := by
  intro fuel
  induction fuel with
  | zero => intro n c h; omega
  | succ fuel ih =>
      intro n c hlt hc
      rw [natToDecimalAux] at hc
      split at hc
      · simp at hc
        rename_i h
        exact ⟨n, by omega, hc⟩
      · rename_i h
        rw [List.mem_append] at hc
        rcases hc with hc | hc
        · exact ih (by
            have := Nat.div_lt_self (show 0 < n by omega) (show 1 < 10 by omega)
            omega) hc
        · simp at hc
          exact ⟨n % 10, by omega, hc⟩

theorem natToDecimal_mem {n : Nat} {c : Char} (hc : c ∈ natToDecimal n) :
    ∃ d, d < 10 ∧ c = digitChar d :=
  natToDecimalAux_mem (n + 1) (by omega) hc

theorem decimalToNat_natToDecimal_aux :
    ∀ (fuel : Nat) (n : Nat), n < fuel → ∀ a : Nat,
      (natToDecimalAux n fuel).foldl (fun a c => a * 10 + (c.toNat - 48)) a
        = a * 10 ^ (natToDecimalAux n fuel).length + n := by
  intro fuel
  induction fuel with
  | zero => intro n h; omega
  | succ fuel ih =>
      intro n hlt a
      rw [natToDecimalAux]
      split
      · rename_i h
        simp [digitChar_toNat h]
      · rename_i h
        have hdiv : n / 10 < fuel := by
          have := Nat.div_lt_self (show 0 < n by omega) (show 1 < 10 by omega)
          omega
        rw [List.foldl_append, ih (n / 10) hdiv a]
        simp [digitChar_toNat (Nat.mod_lt n (by omega))]
        rw [pow_succ]
        have := Nat.div_add_mod n 10
        ring_nf
        omega

theorem decimalToNat_natToDecimal (n : Nat) : decimalToNat (natToDecimal n) = n := by
  unfold decimalToNat natToDecimal
  rw [decimalToNat_natToDecimal_aux (n + 1) n (by omega) 0]
  simp

theorem pyIsDigit_natToDecimal (n : Nat) : pyIsDigit (natToDecimal n) = true := by
  unfold pyIsDigit
  rw [Bool.and_eq_true, List.all_eq_true]
  constructor
  · simp [natToDecimal_ne_nil n]
  · intro c hc
    obtain ⟨d, hd, rfl⟩ := natToDecimal_mem hc
    exact digitChar_digit hd

theorem dropWhile_eq_self_of_none {p : Char → Bool} {l : List Char}
    (h : ∀ c ∈ l, p c = false) : l.dropWhile p = l := by
  cases l with
  | nil => rfl
  | cons c t => simp [List.dropWhile_cons, h c (by simp)]

theorem pyStrip_natToDecimal (n : Nat) : pyStrip (natToDecimal n) = natToDecimal n := by
  have hd : ∀ c ∈ natToDecimal n, pyIsSpace c = false := by
    intro c hc
    obtain ⟨d, hdd, rfl⟩ := natToDecimal_mem hc
    exact digitChar_not_space hdd
  unfold pyStrip
  rw [dropWhile_eq_self_of_none hd,
    dropWhile_eq_self_of_none (fun c hc => hd c (List.mem_reverse.mp hc)),
    List.reverse_reverse]

theorem parse_port_cell_natToDecimal {p : Nat} (hp : 0 < p) :
    parse_port_cell (some (natToDecimal p)) = p := by
  unfold parse_port_cell
  simp only [Option.getD_some, pyStrip_natToDecimal, decimalToNat_natToDecimal]
  rw [if_pos ⟨natToDecimal_ne_nil p, pyIsDigit_natToDecimal p, hp⟩]

theorem parse_subnet_cell_natToDecimal {v : Nat} (hv : 0 < v) :
    parse_subnet_cell (some (natToDecimal v)) = some v := by
  unfold parse_subnet_cell
  simp only [Option.getD_some, pyStrip_natToDecimal, decimalToNat_natToDecimal]
  rw [if_pos ⟨natToDecimal_ne_nil v, pyIsDigit_natToDecimal v, hv⟩]

theorem lookup_map_self {f : Str → Option Str} {col : Str} :
    ∀ {l : List Str}, col ∈ l →
      (l.map (fun h => (h, f h))).lookup col = some (f col) := by
  intro l
  induction l with
  | nil => intro h; cases h
  | cons a t ih =>
      intro hmem
      by_cases hac : col = a
      · subst hac
        simp [List.lookup]
      · rcases List.mem_cons.mp hmem with h | h
        · exact absurd h hac
        · simpa [List.lookup, beq_false_of_ne hac] using ih h

theorem lookup_eq_none_of_not_key {col : Str} :
    ∀ {l : List (Str × Option Str)}, (∀ p ∈ l, p.1 ≠ col) → l.lookup col = none := by
  intro l
  induction l with
  | nil => intro _; rfl
  | cons a t ih =>
      intro h
      have ha : a.1 ≠ col := h a (by simp)
      have : (col == a.1) = false := by
        simpa [beq_iff_eq] using fun he => ha he.symm
      simpa [List.lookup, this] using ih (fun p hp => h p (by simp [hp]))

theorem dictGet_full_row {header : List Str} {f : Str → Str} {col : Str}
    (hmem : col ∈ header) :
    dictGet header (header.map f) col = some (f col) := by
  unfold dictGet rowBindings
  have hz : header.zip (header.map f) = header.map (fun h => (h, f h)) := by
    rw [List.zip_map_right, List.zip_eq_zipWith, List.zipWith_same, List.map_map]
    rfl
  rw [List.length_map, List.drop_length, hz]
  simp only [List.map_nil, List.append_nil, List.map_map]
  have : (header.map ((fun p => (p.1, some p.2)) ∘ fun h => (h, f h))).reverse
      = header.reverse.map (fun h => (h, some (f h))) := by
    rw [← List.map_reverse]
    rfl
  rw [this, lookup_map_self (List.mem_reverse.mpr hmem)]
  rfl

theorem dictGet_mem_of_some {header row : List Str} {col : Str} {v : Str}
    (h : dictGet header row col = some v) : col ∈ header := by
  by_contra hcol
  unfold dictGet rowBindings at h
  rw [lookup_eq_none_of_not_key] at h
  · cases h
  · intro p hp
    rw [List.mem_reverse, List.mem_append] at hp
    rcases hp with hp | hp
    · obtain ⟨q, hq, rfl⟩ := List.mem_map.mp hp
      exact fun he => hcol (he ▸ (List.of_mem_zip hq).1)
    · obtain ⟨q, hq, rfl⟩ := List.mem_map.mp hp
      exact fun he => hcol (he ▸ List.mem_of_mem_drop hq)

/-! ## Port allocator: first-fit correctness -/

theorem auto_assign_port_loop_spec (excluded : Finset Nat) :
    ∀ (fuel port : Nat), (excluded.filter (fun x => port ≤ x)).card < fuel →
      auto_assign_port_loop excluded port fuel ∉ excluded ∧
      port ≤ auto_assign_port_loop excluded port fuel ∧
      ∀ q, port ≤ q → q ∉ excluded → auto_assign_port_loop excluded port fuel ≤ q := by
  intro fuel
  induction fuel with
  | zero => intro port h; omega
  | succ fuel ih =>
      intro port hcard
      rw [auto_assign_port_loop]
      by_cases hmem : port ∈ excluded
      · rw [if_pos hmem]
        have hins : excluded.filter (fun x => port ≤ x)
            = insert port (excluded.filter (fun x => port + 1 ≤ x)) := by
          ext x
          simp only [Finset.mem_filter, Finset.mem_insert]
          constructor
          · intro ⟨hx, hle⟩
            rcases Nat.eq_or_lt_of_le hle with he | hlt
            · exact Or.inl he.symm
            · exact Or.inr ⟨hx, hlt⟩
          · rintro (rfl | ⟨hx, hle⟩)
            · exact ⟨hmem, le_refl _⟩
            · exact ⟨hx, by omega⟩
        have hnot : port ∉ excluded.filter (fun x => port + 1 ≤ x) := by
          simp [Finset.mem_filter]
        have hcard' : (excluded.filter (fun x => port + 1 ≤ x)).card < fuel := by
          rw [hins, Finset.card_insert_of_not_mem hnot] at hcard
          omega
        obtain ⟨h1, h2, h3⟩ := ih (port + 1) hcard'
        refine ⟨h1, by omega, ?_⟩
        intro q hq hqn
        rcases Nat.eq_or_lt_of_le hq with he | hlt
        · exact absurd hmem (he ▸ hqn)
        · exact h3 q (by omega) hqn
      · rw [if_neg hmem]
        exact ⟨hmem, le_refl _, fun q hq _ => hq⟩

/-- `auto_assign_port` returns a port not in `excluded`, at least 2222,
and minimal with those two properties. -/
theorem auto_assign_port_spec (excluded : Finset Nat) :
    auto_assign_port excluded ∉ excluded ∧
    2222 ≤ auto_assign_port excluded ∧
    ∀ q, 2222 ≤ q → q ∉ excluded → auto_assign_port excluded ≤ q := by
  refine auto_assign_port_loop_spec excluded (excluded.card + 1) 2222 ?_
  have := Finset.card_filter_le excluded (fun x => 2222 ≤ x)
  omega

/-! ## Subnet allocator: probe characterization -/

/-- Modelled from the spec (§4.3), for comparison with the code: the
first value of the forward probe sequence `base, next base, next² base, …`
(254 candidates) not in `excluded`, or the natural `base` when the whole
cycle is excluded. -/
def subnetProbeSpec (base : Nat) (excluded : Finset Nat) : Nat :=
  match (List.range 254).find? (fun k => decide (nextSubnet^[k] base ∉ excluded)) with
  | some k => nextSubnet^[k] base
  | none => base

theorem iterate_nextSubnet {base : Nat} (hb1 : 1 ≤ base) (hb2 : base ≤ 254) :
    ∀ k, nextSubnet^[k] base = (base - 1 + k) % 254 + 1 := by
  intro k
  induction k with
  | zero => simp; omega
  | succ k ih =>
      rw [Function.iterate_succ_apply', ih]
      unfold nextSubnet
      omega

theorem find?_range_eq_some {p : Nat → Bool} (j : Nat) :
    ∀ {n : Nat}, j < n → p j = true → (∀ i, i < j → p i = false) →
      (List.range n).find? p = some j := by
  intro n
  induction n with
  | zero => intro h; omega
  | succ n ih =>
      intro hj hpj hlt
      rw [List.range_succ, List.find?_append]
      by_cases hjn : j < n
      · rw [ih hjn hpj hlt]
        rfl
      · have hje : j = n := by omega
        have hnone : (List.range n).find? p = none := by
          rw [List.find?_eq_none]
          intro x hx
          have hxn := List.mem_range.mp hx
          simp [hlt x (by omega)]
        rw [hnone]
        subst hje
        simp [List.find?_cons, hpj]

theorem find?_range_eq_none {p : Nat → Bool} {n : Nat}
    (h : ∀ i, i < n → p i = false) : (List.range n).find? p = none := by
  rw [List.find?_eq_none]
  intro x hx
  simp [h x (List.mem_range.mp hx)]

theorem subnetSearch_eq_spec (used : Finset Nat) (base : Nat)
    (hb1 : 1 ≤ base) (hb2 : base ≤ 254) :
    ∀ (fuel j : Nat), j + fuel = 254 → (∀ i, i < j → nextSubnet^[i] base ∈ used) →
      subnetSearch used base (nextSubnet^[j] base) fuel = subnetProbeSpec base used := by
  intro fuel
  induction fuel with
  | zero =>
      intro j hj hall
      have hj' : j = 254 := by omega
      subst hj'
      rw [subnetSearch]
      have h254 : nextSubnet^[254] base = base := by
        rw [iterate_nextSubnet hb1 hb2]
        omega
      rw [h254]
      unfold subnetProbeSpec
      rw [find?_range_eq_none]
      intro i hi
      exact decide_eq_false (not_not_intro (hall i (by omega)))
  | succ fuel ih =>
      intro j hj hall
      rw [subnetSearch]
      by_cases hcur : nextSubnet^[j] base ∈ used
      · rw [if_pos hcur]
        have hnxt : nextSubnet (nextSubnet^[j] base) = nextSubnet^[j+1] base := by
          rw [Function.iterate_succ_apply']
        by_cases hba : nextSubnet (nextSubnet^[j] base) = base
        · -- the probe wrapped all the way around: j = 253, all 254 excluded
          rw [if_pos hba, hba]
          have hj253 : j = 253 := by
            have h1 := hba
            rw [hnxt] at h1
            rw [iterate_nextSubnet hb1 hb2 (j + 1)] at h1
            omega
          subst hj253
          unfold subnetProbeSpec
          rw [find?_range_eq_none]
          intro i hi
          rcases Nat.lt_or_ge i 253 with h | h
          · exact decide_eq_false (not_not_intro (hall i h))
          · have hieq : i = 253 := by omega
            subst hieq
            exact decide_eq_false (not_not_intro hcur)
        · rw [if_neg hba, hnxt]
          exact ih (j + 1) (by omega)
            (fun i hi => by
              rcases Nat.lt_or_ge i j with h | h
              · exact hall i h
              · have : i = j := by omega
                subst this
                exact hcur)
      · rw [if_neg hcur]
        unfold subnetProbeSpec
        rw [find?_range_eq_some j (by omega) (decide_eq_true hcur)
          (fun i hi => decide_eq_false (not_not_intro (hall i hi)))]

/-- `calculate_subnet_id` equals the spec's probe: natural subnet
`hash % 254 + 1`, forward probe with wraparound, natural value returned
when the whole cycle is excluded. -/
theorem calculate_subnet_id_eq_probeSpec (hash : Str → Nat) (sid : Str)
    (used : Finset Nat) :
    calculate_subnet_id hash sid used = subnetProbeSpec (hash sid % 254 + 1) used := by
  unfold calculate_subnet_id
  have := subnetSearch_eq_spec used (hash sid % 254 + 1)
    (by omega) (by omega) 254 0 (by omega) (by omega)
  simpa using this

theorem subnetProbeSpec_mem_range {base : Nat} (hb1 : 1 ≤ base) (hb2 : base ≤ 254)
    (excluded : Finset Nat) :
    1 ≤ subnetProbeSpec base excluded ∧ subnetProbeSpec base excluded ≤ 254 := by
  unfold subnetProbeSpec
  split
  · rename_i k _
    rw [iterate_nextSubnet hb1 hb2]
    omega
  · omega

/-- If some value in `1..254` is unexcluded, the probe finds one. -/
theorem subnetProbeSpec_not_mem {base : Nat} (hb1 : 1 ≤ base) (hb2 : base ≤ 254)
    {excluded : Finset Nat} {x : Nat} (hx1 : 1 ≤ x) (hx2 : x ≤ 254)
    (hxe : x ∉ excluded) : subnetProbeSpec base excluded ∉ excluded := by
  have hcover : ∃ k, k < 254 ∧ nextSubnet^[k] base = x := by
    refine ⟨(x - 1 + 254 - (base - 1)) % 254, Nat.mod_lt _ (by omega), ?_⟩
    rw [iterate_nextSubnet hb1 hb2]
    omega
  obtain ⟨k, hk, hkx⟩ := hcover
  unfold subnetProbeSpec
  split
  · rename_i j hj
    have := List.find?_some hj
    simpa using this
  · rename_i hnone
    exfalso
    rw [List.find?_eq_none] at hnone
    have := hnone k (List.mem_range.mpr hk)
    simp [hkx] at this
    exact hxe (hkx ▸ this)

/-- Degenerate full cycle: every value in `1..254` excluded ⇒ the natural
base is returned (rather than failing). -/
theorem subnetProbeSpec_full {base : Nat} (hb1 : 1 ≤ base) (hb2 : base ≤ 254)
    {excluded : Finset Nat} (h : ∀ x, 1 ≤ x → x ≤ 254 → x ∈ excluded) :
    subnetProbeSpec base excluded = base := by
  unfold subnetProbeSpec
  rw [find?_range_eq_none]
  intro i _
  have hr : 1 ≤ nextSubnet^[i] base ∧ nextSubnet^[i] base ≤ 254 := by
    rw [iterate_nextSubnet hb1 hb2]
    omega
  exact decide_eq_false (not_not_intro (h _ hr.1 hr.2))

/-! ## Reconciler loop: characterizations and invariants -/

theorem needs_new_port_false_iff {existing : List Student} {used assigned : Finset Nat}
    {s : Student} :
    needs_new_port existing used assigned s = false ↔
      (s.port ≠ 0 ∧ s.port ∉ assigned ∧ port_counts existing s.port < 2 ∧
        (s.port ∈ used → existing_port_owner existing s.port = some s.student_id)) := by
  unfold needs_new_port
  split_ifs with h1 h2 h3 h4 <;> simp_all

theorem needs_new_subnet_false_iff {existing : List Student} {used assigned : Finset Nat}
    {s : Student} :
    needs_new_subnet existing used assigned s = false ↔
      ∃ v, s.subnet_id = some v ∧ v ≠ 0 ∧ v ∉ assigned ∧
        subnet_counts existing v < 2 ∧
        (v ∈ used → existing_subnet_owner existing v = some s.student_id) := by
  unfold needs_new_subnet
  cases hs : s.subnet_id with
  | none => simp
  | some v =>
      simp only [hs]
      split_ifs with h1 h2 h3 h4 <;> simp_all

/-- The freshly probed subnet is always in `1..254`. -/
theorem calculate_subnet_id_range (hash : Str → Nat) (sid : Str) (used : Finset Nat) :
    1 ≤ calculate_subnet_id hash sid used ∧ calculate_subnet_id hash sid used ≤ 254 := by
  rw [calculate_subnet_id_eq_probeSpec]
  exact subnetProbeSpec_mem_range (by omega) (by omega) used

/-- If some subnet in `1..254` is free, the probe avoids `used`. -/
theorem calculate_subnet_id_not_mem (hash : Str → Nat) (sid : Str)
    {used : Finset Nat} {x : Nat} (hx1 : 1 ≤ x) (hx2 : x ≤ 254) (hxe : x ∉ used) :
    calculate_subnet_id hash sid used ∉ used := by
  rw [calculate_subnet_id_eq_probeSpec]
  exact subnetProbeSpec_not_mem (by omega) (by omega) hx1 hx2 hxe

theorem ensure_loop_changed_mono (hash : Str → Nat) (ex : List Student) :
    ∀ (l : List Student) (st : EnsureState), st.changed = true →
      (ensure_loop hash ex l st).2.changed = true := by
  intro l
  induction l with
  | nil => intro st h; exact h
  | cons s rest ih =>
      intro st h
      rw [ensure_loop]
      exact ih _ (by simp [h])

theorem needs_new_port_of_zero {ex : List Student} {u a : Finset Nat} {s : Student}
    (h : s.port = 0) : needs_new_port ex u a s = true := by
  unfold needs_new_port
  rw [if_pos h]

theorem needs_new_subnet_of_none {ex : List Student} {u a : Finset Nat} {s : Student}
    (h : s.subnet_id = none) : needs_new_subnet ex u a s = true := by
  unfold needs_new_subnet
  rw [h]

/-- Any batch record still carrying an unassigned port or subnet flips the
change flag. -/
theorem ensure_loop_changed_of_invalid (hash : Str → Nat) (ex : List Student) :
    ∀ (l : List Student) (st : EnsureState) (s : Student), s ∈ l →
      (s.port = 0 ∨ s.subnet_id = none) →
      (ensure_loop hash ex l st).2.changed = true := by
  intro l
  induction l with
  | nil => intro st s h; cases h
  | cons t rest ih =>
      intro st s hmem hbad
      rw [ensure_loop]
      rcases List.mem_cons.mp hmem with rfl | hmem'
      · apply ensure_loop_changed_mono
        rcases hbad with h | h
        · simp [needs_new_port_of_zero h]
        · simp [needs_new_subnet_of_none h]
      · exact ih _ s hmem' hbad

/-- Shape of every record the reconciler outputs: identity untouched,
the port positive (new ports `≥ 2222`), the subnet assigned and positive
(new subnets in `1..254`). -/
theorem ensure_loop_record_props (hash : Str → Nat) (ex : List Student) :
    ∀ (l : List Student) (st : EnsureState),
      List.Forall₂ (fun s s' : Student =>
        s'.student_id = s.student_id ∧ s'.student_name = s.student_name ∧
        0 < s'.port ∧ (∃ v, s'.subnet_id = some v ∧ 0 < v) ∧
        (s'.port = s.port ∨ 2222 ≤ s'.port) ∧
        (s'.subnet_id = s.subnet_id ∨ ∃ v, s'.subnet_id = some v ∧ 1 ≤ v ∧ v ≤ 254))
        l (ensure_loop hash ex l st).1 := by
  intro l
  induction l with
  | nil => intro st; exact List.Forall₂.nil
  | cons s rest ih =>
      intro st
      rw [ensure_loop]
      simp only
      refine List.Forall₂.cons ?_ (ih _)
      constructor
      · rfl
      constructor
      · rfl
      refine ⟨?_, ?_, ?_, ?_⟩
      · by_cases hnp : needs_new_port ex st.usedPorts st.assignedPorts s = true
        · simp only [hnp, if_true]
          have := (auto_assign_port_spec (st.usedPorts ∪ st.assignedPorts)).2.1
          omega
        · rw [Bool.not_eq_true] at hnp
          simp only [hnp, Bool.false_eq_true, if_false]
          have := (needs_new_port_false_iff.mp hnp).1
          omega
      · by_cases hns : needs_new_subnet ex st.usedSubnets st.assignedSubnets s = true
        · simp only [hns, if_true]
          have := calculate_subnet_id_range hash s.student_id
            (st.usedSubnets ∪ st.assignedSubnets)
          exact ⟨_, rfl, by omega⟩
        · rw [Bool.not_eq_true] at hns
          simp only [hns, Bool.false_eq_true, if_false]
          obtain ⟨v, hv, hv0, -⟩ := needs_new_subnet_false_iff.mp hns
          exact ⟨v, hv, by omega⟩
      · by_cases hnp : needs_new_port ex st.usedPorts st.assignedPorts s = true
        · simp only [hnp, if_true]
          exact Or.inr (auto_assign_port_spec (st.usedPorts ∪ st.assignedPorts)).2.1
        · rw [Bool.not_eq_true] at hnp
          simp only [hnp, Bool.false_eq_true, if_false]
          exact Or.inl trivial
      · by_cases hns : needs_new_subnet ex st.usedSubnets st.assignedSubnets s = true
        · simp only [hns, if_true]
          have := calculate_subnet_id_range hash s.student_id
            (st.usedSubnets ∪ st.assignedSubnets)
          exact Or.inr ⟨_, rfl, by omega⟩
        · rw [Bool.not_eq_true] at hns
          simp only [hns, Bool.false_eq_true, if_false]
          exact Or.inl trivial

/-- Batch-internal port uniqueness: every output port avoids the
batch-claimed set at entry, and output ports are pairwise distinct. -/
theorem ensure_loop_ports_nodup (hash : Str → Nat) (ex : List Student) :
    ∀ (l : List Student) (st : EnsureState),
      (∀ t ∈ (ensure_loop hash ex l st).1, t.port ∉ st.assignedPorts) ∧
      ((ensure_loop hash ex l st).1.map (·.port)).Nodup := by
  intro l
  induction l with
  | nil => intro st; simp [ensure_loop]
  | cons s rest ih =>
      intro st
      rw [ensure_loop]
      simp only
      have hhead : (if needs_new_port ex st.usedPorts st.assignedPorts s then
          auto_assign_port (st.usedPorts ∪ st.assignedPorts) else s.port)
          ∉ st.assignedPorts := by
        by_cases hnp : needs_new_port ex st.usedPorts st.assignedPorts s = true
        · simp only [hnp, if_true]
          have := (auto_assign_port_spec (st.usedPorts ∪ st.assignedPorts)).1
          exact fun hmem => this (Finset.mem_union_right _ hmem)
        · rw [Bool.not_eq_true] at hnp
          simp only [hnp, Bool.false_eq_true, if_false]
          exact (needs_new_port_false_iff.mp hnp).2.1
      refine ⟨?_, ?_⟩
      · intro t ht
        rcases List.mem_cons.mp ht with rfl | ht'
        · exact hhead
        · have hmem := (ih _).1 t ht'
          intro hin
          exact hmem (Finset.mem_insert_of_mem hin)
      · rw [List.map_cons, List.nodup_cons]
        refine ⟨?_, (ih _).2⟩
        intro hmem
        obtain ⟨t, ht, hpt⟩ := List.mem_map.mp hmem
        exact (ih _).1 t ht (hpt ▸ Finset.mem_insert_self _ _)

/-- Batch-internal subnet uniqueness, under the capacity bound that keeps
every probe away from the degenerate full-cycle case. -/
theorem ensure_loop_subnets_nodup (hash : Str → Nat) (ex : List Student) :
    ∀ (l : List Student) (st : EnsureState),
      st.assignedSubnets ⊆ st.usedSubnets →
      st.usedSubnets.card + l.length ≤ 253 →
      (∀ t ∈ (ensure_loop hash ex l st).1, t.subnet_id.getD 0 ∉ st.assignedSubnets) ∧
      ((ensure_loop hash ex l st).1.map (·.subnet_id)).Nodup := by
  intro l
  induction l with
  | nil => intro st _ _; simp [ensure_loop]
  | cons s rest ih =>
      intro st hsub hcard
      rw [ensure_loop]
      simp only
      have hfree : ∃ x, 1 ≤ x ∧ x ≤ 254 ∧ x ∉ st.usedSubnets ∪ st.assignedSubnets := by
        rw [Finset.union_eq_left.mpr hsub]
        by_contra hno
        push_neg at hno
        have hsubset : Finset.Icc 1 254 ⊆ st.usedSubnets := by
          intro x hx
          rw [Finset.mem_Icc] at hx
          exact hno x hx.1 hx.2
        have := Finset.card_le_card hsubset
        rw [Nat.card_Icc] at this
        omega
      have hhead : (if needs_new_subnet ex st.usedSubnets st.assignedSubnets s then
            some (calculate_subnet_id hash s.student_id
              (st.usedSubnets ∪ st.assignedSubnets))
          else s.subnet_id).getD 0 ∉ st.assignedSubnets := by
        by_cases hns : needs_new_subnet ex st.usedSubnets st.assignedSubnets s = true
        · simp only [hns, if_true, Option.getD_some]
          obtain ⟨x, hx1, hx2, hxe⟩ := hfree
          have := calculate_subnet_id_not_mem hash s.student_id hx1 hx2 hxe
          exact fun hmem => this (Finset.mem_union_right _ hmem)
        · rw [Bool.not_eq_true] at hns
          simp only [hns, Bool.false_eq_true, if_false]
          obtain ⟨v, hv, _, hva, _, _⟩ := needs_new_subnet_false_iff.mp hns
          rw [hv]
          exact hva
      have hsub2 : ∀ (w : Nat), insert w st.assignedSubnets ⊆ insert w st.usedSubnets :=
        fun w => Finset.insert_subset_insert _ hsub
      have hcard2 : ∀ (w : Nat), (insert w st.usedSubnets).card + rest.length ≤ 253 := by
        intro w
        have := Finset.card_insert_le w st.usedSubnets
        simp only [List.length_cons] at hcard
        omega
      refine ⟨?_, ?_⟩
      · intro t ht
        rcases List.mem_cons.mp ht with rfl | ht'
        · exact hhead
        · have hmem := (ih _ (hsub2 _) (hcard2 _)).1 t ht'
          intro hin
          exact hmem (Finset.mem_insert_of_mem hin)
      · rw [List.map_cons, List.nodup_cons]
        refine ⟨?_, (ih _ (hsub2 _) (hcard2 _)).2⟩
        intro hmem
        obtain ⟨t, ht, hpt⟩ := List.mem_map.mp hmem
        exact (ih _ (hsub2 _) (hcard2 _)).1 t ht (by rw [hpt]; exact Finset.mem_insert_self _ _)

theorem ensure_loop_changed_anti (hash : Str → Nat) (ex : List Student)
    (l : List Student) (st : EnsureState)
    (h : (ensure_loop hash ex l st).2.changed = false) : st.changed = false := by
  by_contra hc
  rw [Bool.not_eq_false] at hc
  rw [ensure_loop_changed_mono hash ex l st hc] at h
  cases h

/-- A run that reports no change reproduced its input batch verbatim. -/
theorem ensure_loop_unchanged (hash : Str → Nat) (ex : List Student) :
    ∀ (l : List Student) (st : EnsureState),
      (ensure_loop hash ex l st).2.changed = false →
      st.changed = false ∧ (ensure_loop hash ex l st).1 = l := by
  intro l
  induction l with
  | nil => intro st h; exact ⟨h, rfl⟩
  | cons s rest ih =>
      intro st h
      rw [ensure_loop] at h ⊢
      simp only at h ⊢
      have hst2 := ensure_loop_changed_anti hash ex rest _ h
      have hflags : (st.changed = false ∧
          needs_new_port ex st.usedPorts st.assignedPorts s = false) ∧
          needs_new_subnet ex st.usedSubnets st.assignedSubnets s = false := by
        simpa using hst2
      obtain ⟨⟨hc, hnp⟩, hns⟩ := hflags
      simp only [hnp, hns, Bool.false_eq_true, if_false, Bool.or_false] at h ⊢
      obtain ⟨-, htail⟩ := ih _ h
      exact ⟨hc, by rw [htail]⟩

/-- Conditions under which one run keeps every record exactly as it is
(the idempotent case): every record valid, batch-internally unique, and
the sole owner of its values in the ownership scan. -/
theorem ensure_loop_keeps_valid (hash : Str → Nat) (ex : List Student) :
    ∀ (l : List Student) (st : EnsureState),
      (∀ s ∈ l, s.port ≠ 0 ∧ port_counts ex s.port < 2 ∧
        existing_port_owner ex s.port = some s.student_id) →
      (∀ s ∈ l, ∃ v, s.subnet_id = some v ∧ v ≠ 0 ∧ subnet_counts ex v < 2 ∧
        existing_subnet_owner ex v = some s.student_id) →
      (∀ s ∈ l, s.port ∉ st.assignedPorts) →
      (∀ s ∈ l, s.subnet_id.getD 0 ∉ st.assignedSubnets) →
      (l.map (·.port)).Nodup →
      (l.map (·.subnet_id)).Nodup →
      (ensure_loop hash ex l st).1 = l ∧
      (ensure_loop hash ex l st).2.changed = st.changed := by
  intro l
  induction l with
  | nil => intro st _ _ _ _ _ _; exact ⟨rfl, rfl⟩
  | cons s rest ih =>
      intro st hport hsubnet hap has hnp hns
      rw [ensure_loop]
      simp only
      have hs := hport s (by simp)
      have hsv := hsubnet s (by simp)
      obtain ⟨v, hv, hv0, hvc, hvo⟩ := hsv
      have hnpf : needs_new_port ex st.usedPorts st.assignedPorts s = false := by
        rw [needs_new_port_false_iff]
        exact ⟨hs.1, hap s (by simp), hs.2.1, fun _ => hs.2.2⟩
      have hnsf : needs_new_subnet ex st.usedSubnets st.assignedSubnets s = false := by
        rw [needs_new_subnet_false_iff]
        refine ⟨v, hv, hv0, ?_, hvc, fun _ => hvo⟩
        have := has s (by simp)
        rwa [hv, Option.getD_some] at this
      rw [hnpf, hnsf]
      simp only [Bool.false_eq_true, if_false, Bool.or_false]
      rw [List.map_cons, List.nodup_cons] at hnp hns
      have htail := ih
        ⟨insert s.port st.usedPorts, insert ((s.subnet_id).getD 0) st.usedSubnets,
          insert s.port st.assignedPorts, insert ((s.subnet_id).getD 0) st.assignedSubnets,
          st.changed⟩
        (fun t ht => hport t (by simp [ht]))
        (fun t ht => hsubnet t (by simp [ht]))
        (fun t ht => by
          rw [Finset.mem_insert]
          push_neg
          refine ⟨?_, hap t (by simp [ht])⟩
          intro he
          exact hnp.1 (List.mem_map.mpr ⟨t, ht, he⟩))
        (fun t ht => by
          rw [Finset.mem_insert]
          push_neg
          refine ⟨?_, has t (by simp [ht])⟩
          intro he
          obtain ⟨u, hu, hu0, _, _⟩ := hsubnet t (by simp [ht])
          rw [hv, Option.getD_some] at he
          rw [hu, Option.getD_some] at he
          exact hns.1 (List.mem_map.mpr ⟨t, ht, by rw [hu, hv, he]⟩))
        hnp.2 hns.2
      refine ⟨?_, ?_⟩
      · rw [htail.1]
      · rw [htail.2]

/-! ## Option-mapM and fold utilities -/

theorem option_mapM_some_of {α β : Type} (f : α → Option β) (g : α → β) :
    ∀ l : List α, (∀ x ∈ l, f x = some (g x)) → l.mapM f = some (l.map g) := by
  intro l
  induction l with
  | nil => intro _; rfl
  | cons a t ih =>
      intro h
      rw [← List.mapM'_eq_mapM] at ih ⊢
      simp only [List.mapM', h a (by simp)]
      rw [ih (fun x hx => h x (by simp [hx]))]
      rfl

theorem option_mapM_none {α β : Type} (f : α → Option β) :
    ∀ l : List α, (∃ x ∈ l, f x = none) → l.mapM f = none := by
  intro l
  induction l with
  | nil => rintro ⟨x, hx, -⟩; cases hx
  | cons a t ih =>
      rintro ⟨x, hx, hfx⟩
      rw [← List.mapM'_eq_mapM]
      rcases List.mem_cons.mp hx with rfl | hx'
      · simp [List.mapM', hfx]
      · simp only [List.mapM']
        rw [← List.mapM'_eq_mapM] at ih
        cases hfa : f a with
        | none => rfl
        | some b => simp [ih ⟨x, hx', hfx⟩]

theorem option_mapM_length {α β : Type} {f : α → Option β} :
    ∀ {l : List α} {out : List β}, l.mapM f = some out → out.length = l.length := by
  intro l
  induction l with
  | nil =>
      intro out h
      rw [← List.mapM'_eq_mapM] at h
      simp only [List.mapM', pure, Option.some.injEq] at h
      rw [← h]
      rfl
  | cons a t ih =>
      intro out h
      rw [← List.mapM'_eq_mapM] at h
      simp only [List.mapM'] at h
      cases hfa : f a with
      | none => rw [hfa] at h; cases h
      | some b =>
          rw [hfa] at h
          simp only [Option.bind_eq_bind, Option.some_bind] at h
          cases hft : t.mapM' f with
          | none => rw [hft] at h; cases h
          | some bs =>
              rw [hft] at h
              simp only [Option.some_bind, pure, Option.some.injEq] at h
              rw [← h]
              rw [List.mapM'_eq_mapM] at hft
              simp [ih hft]

theorem foldl_card_le {α : Type} (step : Finset Nat → α → Finset Nat)
    (hstep : ∀ acc x, (step acc x).card ≤ acc.card + 1) :
    ∀ (l : List α) (acc : Finset Nat), (l.foldl step acc).card ≤ acc.card + l.length := by
  intro l
  induction l with
  | nil => intro acc; simp
  | cons a t ih =>
      intro acc
      rw [List.foldl_cons]
      have h1 := ih (step acc a)
      have h2 := hstep acc a
      simp only [List.length_cons]
      omega

/-- The used-subnet scan collects at most one value per row. -/
theorem get_used_subnets_card_le (c : Csv) :
    (get_used_subnets (some c)).card ≤ c.rows.length := by
  unfold get_used_subnets
  have := foldl_card_le
    (fun acc row =>
      match dictGet c.header row sSubnet with
      | some v =>
          if v ≠ [] then
            let sv := pyStrip v
            if sv ≠ [] ∧ pyIsDigit sv then insert (decimalToNat sv) acc
            else acc
          else acc
      | none => acc)
    (fun acc row => by
      cases hv : dictGet c.header row sSubnet with
      | none => simp [hv]
      | some v =>
          simp only [hv]
          split_ifs <;> simp [Finset.card_insert_le])
    c.rows ∅
  simpa using this

/-! ## Write/parse round trip -/

theorem option_mapM_map {α γ β : Type} (f : γ → Option β) (g : α → γ) (h : α → β) :
    ∀ l : List α, (∀ x ∈ l, f (g x) = some (h x)) → (l.map g).mapM f = some (l.map h) := by
  intro l
  induction l with
  | nil => intro _; rfl
  | cons a t ih =>
      intro hl
      rw [List.map_cons, List.map_cons, ← List.mapM'_eq_mapM]
      simp only [List.mapM', hl a (by simp)]
      rw [List.mapM'_eq_mapM, ih (fun x hx => hl x (by simp [hx]))]
      rfl

theorem write_fieldnames_mem_port (disk : Option Csv) : sPort ∈ write_fieldnames disk := by
  unfold write_fieldnames
  cases disk with
  | none => simp [base_fields]
  | some c =>
      simp only
      split_ifs with h
      · rw [List.mem_append]
        by_cases hm : sPort ∈ c.header
        · exact Or.inl hm
        · exact Or.inr (by simp [hm])
      · simp [base_fields]

theorem write_fieldnames_mem_subnet (disk : Option Csv) : sSubnet ∈ write_fieldnames disk := by
  unfold write_fieldnames
  cases disk with
  | none => simp [base_fields]
  | some c =>
      simp only
      split_ifs with h
      · rw [List.mem_append]
        by_cases hm : sSubnet ∈ c.header
        · exact Or.inl hm
        · exact Or.inr (by simp [hm])
      · simp [base_fields]

theorem write_fieldnames_mem_of_header {c : Csv} {col : Str} (h : col ∈ c.header) :
    col ∈ write_fieldnames (some c) := by
  unfold write_fieldnames
  simp only
  rw [if_pos (by intro he; rw [he] at h; cases h)]
  exact List.mem_append.mpr (Or.inl h)

theorem student_cell_id (s : Student) : student_cell s sID = s.student_id := by
  simp [student_cell]

theorem student_cell_name (s : Student) : student_cell s sName = s.student_name := by
  unfold student_cell
  rw [if_neg (by decide), if_pos rfl]

theorem student_cell_port (s : Student) : student_cell s sPort = natToDecimal s.port := by
  unfold student_cell
  rw [if_neg (by decide), if_neg (by decide), if_pos rfl]

theorem student_cell_subnet (s : Student) :
    student_cell s sSubnet =
      (match s.subnet_id with | some v => natToDecimal v | none => []) := by
  unfold student_cell
  rw [if_neg (by decide), if_neg (by decide), if_neg (by decide), if_pos rfl]

/-- Parsing back a row the writer just produced recovers the record
(identities re-stripped; valid port and subnet recovered exactly). -/
theorem parse_row_write (disk : Option Csv) (s : Student)
    (hID : sID ∈ write_fieldnames disk) (hName : sName ∈ write_fieldnames disk)
    (hp : 0 < s.port) {v : Nat} (hs : s.subnet_id = some v) (hv : 0 < v) :
    parse_row (write_fieldnames disk) ((write_fieldnames disk).map (student_cell s))
      = some { student_id := pyStrip s.student_id
               student_name := pyStrip s.student_name
               port := s.port
               subnet_id := s.subnet_id } := by
  unfold parse_row
  rw [dictGet_full_row hID, dictGet_full_row hName,
    dictGet_full_row (write_fieldnames_mem_port disk),
    dictGet_full_row (write_fieldnames_mem_subnet disk)]
  simp only [student_cell_id, student_cell_name, student_cell_port, student_cell_subnet]
  rw [hs]
  simp only [parse_port_cell_natToDecimal hp, parse_subnet_cell_natToDecimal hv]

/-- Re-reading a freshly written roster parses every record back
(valid records assumed: positive port, assigned positive subnet). -/
theorem readStudentsPure_write (disk : Option Csv) (students : List Student)
    (hID : sID ∈ write_fieldnames disk) (hName : sName ∈ write_fieldnames disk)
    (hok : ∀ s ∈ students, 0 < s.port ∧ ∃ v, s.subnet_id = some v ∧ 0 < v) :
    readStudentsPure (some (write_students_csv disk students))
      = students.map (fun s =>
          { student_id := pyStrip s.student_id
            student_name := pyStrip s.student_name
            port := s.port
            subnet_id := s.subnet_id }) := by
  unfold readStudentsPure write_students_csv
  simp only
  rw [option_mapM_map (parse_row (write_fieldnames disk))
    (fun s => (write_fieldnames disk).map (student_cell s))
    (fun s => { student_id := pyStrip s.student_id
                student_name := pyStrip s.student_name
                port := s.port
                subnet_id := s.subnet_id })
    students
    (by
      intro s hsm
      obtain ⟨hp, v, hsv, hv⟩ := hok s hsm
      exact parse_row_write disk s hID hName hp hsv hv)]
  rfl

/-! ## Merge lemmas -/

theorem find?_eq_some_unique {p : Student → Bool} {u : Student} :
    ∀ {l : List Student}, u ∈ l → p u = true → (∀ w ∈ l, p w = true → w = u) →
      l.find? p = some u := by
  intro l
  induction l with
  | nil => intro h; cases h
  | cons a t ih =>
      intro hmem hpu huniq
      rw [List.find?_cons]
      cases hpa : p a with
      | true => rw [huniq a (by simp) hpa]
      | false =>
          have hu : u ∈ t := by
            rcases List.mem_cons.mp hmem with rfl | h
            · rw [hpu] at hpa; cases hpa
            · exact h
          exact ih hu hpu (fun w hw => huniq w (by simp [hw]))

/-- When the batch covers exactly the roster's ids (pointwise) and ids are
unique, the replacement pass of the merge returns the updated batch. -/
theorem merge_students_eq_updated {all updated : List Student}
    (hf : List.Forall₂ (fun a u => u.student_id = a.student_id) all updated)
    (hnd : (all.map (·.student_id)).Nodup) :
    merge_students all updated = updated := by
  have hlen := hf.length_eq
  have hget := (List.forall₂_iff_get.mp hf).2
  unfold merge_students
  simp only
  have hfil : updated.filter
      (fun u => decide (u.student_id ∉ all.map (·.student_id))) = [] := by
    rw [List.filter_eq_nil_iff]
    intro u hu
    obtain ⟨j, hj, rfl⟩ := List.mem_iff_getElem.mp hu
    simp only [decide_eq_true_eq, not_not]
    have hid := hget j (by omega) hj
    simp only [List.get_eq_getElem] at hid
    rw [List.mem_map]
    have hja : j < all.length := by omega
    exact ⟨all[j], List.getElem_mem hja, hid.symm⟩
  rw [hfil, List.append_nil]
  apply List.ext_getElem (by simp [hlen])
  intro i h1 h2
  rw [List.getElem_map]
  have hi1 : i < all.length := by simpa using h1
  have hfind : updated.reverse.find?
      (fun u => u.student_id == all[i].student_id) = some updated[i] := by
    apply find?_eq_some_unique
    · rw [List.mem_reverse]
      exact List.getElem_mem h2
    · have hiid := hget i hi1 h2
      simp only [List.get_eq_getElem] at hiid
      simp [hiid]
    · intro w hw hpw
      rw [List.mem_reverse] at hw
      obtain ⟨j, hj, rfl⟩ := List.mem_iff_getElem.mp hw
      have hwid := hget j (by omega) hj
      have hiid := hget i hi1 h2
      simp only [List.get_eq_getElem] at hwid hiid
      rw [beq_iff_eq] at hpw
      have hltj : j < (all.map (·.student_id)).length := by simp; omega
      have hlti : i < (all.map (·.student_id)).length := by simpa using hi1
      have hij : (all.map (·.student_id)).get ⟨j, hltj⟩
          = (all.map (·.student_id)).get ⟨i, hlti⟩ := by
        simp only [List.get_eq_getElem, List.getElem_map]
        rw [← hwid]
        exact hpw
      have hji : j = i := congrArg Fin.val ((List.Nodup.get_inj_iff hnd).mp hij)
      subst hji
      rfl
  rw [hfind]

/-! ## Claims -/

/-- C4: for every `student_id` and excluded set, the subnet allocator
computes the natural subnet `hash(student_id) % 254 + 1`, probes forward
with wraparound `254 → 1` until an unexcluded value is found, and when the
probe returns to the natural subnet (all 254 taken) it returns the natural
subnet rather than failing.  Determinism holds because the embedding is a
pure function of `student_id` and the excluded set.  (`subnetProbeSpec` is
the probe as the spec words it.) -/
theorem claim_C4 (hash : Str → Nat) (sid : Str) (excluded : Finset Nat) :
    calculate_subnet_id hash sid excluded = subnetProbeSpec (hash sid % 254 + 1) excluded
    ∧ ((∀ x ∈ Finset.Icc (1:Nat) 254, x ∈ excluded) →
        calculate_subnet_id hash sid excluded = hash sid % 254 + 1) := by
  refine ⟨calculate_subnet_id_eq_probeSpec hash sid excluded, ?_⟩
  intro h
  rw [calculate_subnet_id_eq_probeSpec]
  exact subnetProbeSpec_full (by omega) (by omega)
    (fun x h1 h2 => h x (Finset.mem_Icc.mpr ⟨h1, h2⟩))

theorem claim_C4_witness :
    calculate_subnet_id (fun _ => 0) ("s".data) (Finset.Icc 1 254) = 1 := by
  have := (claim_C4 (fun _ => 0) ("s".data) (Finset.Icc 1 254)).2 (fun x hx => hx)
  simpa using this

/-- C5: the port allocator returns the smallest integer `≥ 2222` outside
the excluded set (deterministic first-fit); in particular
`auto_assign_port {2222, 2223, 2225} = 2224`. -/
theorem claim_C5 (excluded : Finset Nat) :
    (auto_assign_port excluded ∉ excluded ∧ 2222 ≤ auto_assign_port excluded ∧
      ∀ q, 2222 ≤ q → q ∉ excluded → auto_assign_port excluded ≤ q) ∧
    auto_assign_port {2222, 2223, 2225} = 2224 :=
  ⟨auto_assign_port_spec excluded, by decide⟩

theorem claim_C5_witness : auto_assign_port {2222, 2223, 2225} ≤ 2224 :=
  (claim_C5 {2222, 2223, 2225}).1.2.2 2224 (by decide) (by decide)

/-- C9: the roster load never raises: a missing file or any row parse
error yields an empty roster; a missing, blank, non-numeric or
non-positive `port` cell parses to the sentinel `0`, and likewise a
`subnet_id` cell to `none`.  (Totality of the embedding models the
catch-all `except` blocks.) -/
theorem claim_C9 :
    (∀ (hash : Str → Nat) (u : Bool), read_students_csv hash none u = ([], none, false))
    ∧ (∀ (hash : Str → Nat) (u : Bool) (c : Csv),
        (∃ row ∈ c.rows, parse_row c.header row = none) →
        (read_students_csv hash (some c) u).1 = [])
    ∧ (∀ v : Option Str,
        (v = none → parse_port_cell v = 0) ∧
        (pyStrip (v.getD []) = [] → parse_port_cell v = 0) ∧
        (pyIsDigit (pyStrip (v.getD [])) = false → parse_port_cell v = 0) ∧
        (decimalToNat (pyStrip (v.getD [])) = 0 → parse_port_cell v = 0))
    ∧ (∀ v : Option Str,
        (v = none → parse_subnet_cell v = none) ∧
        (pyStrip (v.getD []) = [] → parse_subnet_cell v = none) ∧
        (pyIsDigit (pyStrip (v.getD [])) = false → parse_subnet_cell v = none) ∧
        (decimalToNat (pyStrip (v.getD [])) = 0 → parse_subnet_cell v = none)) := by
  refine ⟨fun hash u => rfl, ?_, ?_, ?_⟩
  · intro hash u c hrow
    unfold read_students_csv
    simp only
    rw [option_mapM_none _ _ hrow]
  · intro v
    refine ⟨?_, ?_, ?_, ?_⟩ <;> intro h <;> simp only [parse_port_cell] <;> rw [if_neg]
    · rintro ⟨h1, -, -⟩
      rw [h] at h1
      exact h1 rfl
    · rintro ⟨h1, -, -⟩
      exact h1 h
    · rintro ⟨-, h2, -⟩
      rw [h] at h2
      cases h2
    · rintro ⟨-, -, h3⟩
      omega
  · intro v
    refine ⟨?_, ?_, ?_, ?_⟩ <;> intro h <;> simp only [parse_subnet_cell] <;> rw [if_neg]
    · rintro ⟨h1, -, -⟩
      rw [h] at h1
      exact h1 rfl
    · rintro ⟨h1, -, -⟩
      exact h1 h
    · rintro ⟨-, h2, -⟩
      rw [h] at h2
      cases h2
    · rintro ⟨-, -, h3⟩
      omega

theorem claim_C9_witness :
    read_students_csv (fun _ => 0) none true = ([], none, false) ∧
    parse_port_cell (some (" ".data)) = 0 ∧
    parse_port_cell (some ("abc".data)) = 0 ∧
    parse_port_cell (some ("0".data)) = 0 ∧
    parse_subnet_cell (some ("-3".data)) = none ∧
    (read_students_csv (fun _ => 0)
      (some ⟨[sName], [["x".data]]⟩) true).1 = [] :=
  ⟨claim_C9.1 (fun _ => 0) true,
   (claim_C9.2.2.1 (some (" ".data))).2.1 (by decide),
   (claim_C9.2.2.1 (some ("abc".data))).2.2.1 (by decide),
   (claim_C9.2.2.1 (some ("0".data))).2.2.2 (by decide),
   (claim_C9.2.2.2 (some ("-3".data))).2.2.1 (by decide),
   claim_C9.2.1 (fun _ => 0) true ⟨[sName], [["x".data]]⟩
     ⟨["x".data], by decide, by decide⟩⟩

/-- C10: the public read path with its default `update_if_changed = True`
invokes the reconciler, so loading a roster containing a record without a
valid assignment rewrites the roster file as a side effect; only the
non-default `False` call is a pure read. -/
theorem claim_C10 (hash : Str → Nat) :
    (∀ (c : Csv) (students : List Student),
        c.rows.mapM (parse_row c.header) = some students →
        (∃ s ∈ students, s.port = 0 ∨ s.subnet_id = none) →
        (read_students_csv hash (some c) true).2.2 = true)
    ∧ (∀ disk : Option Csv,
        read_students_csv hash disk false = (readStudentsPure disk, disk, false)) := by
  constructor
  · intro c students hparse hbad
    unfold read_students_csv
    simp only
    rw [hparse]
    simp only
    obtain ⟨s, hmem, hor⟩ := hbad
    have hne : students ≠ [] := by
      intro he
      rw [he] at hmem
      cases hmem
    unfold ensure_assignments
    rw [if_neg hne]
    simp only
    rw [ensure_loop_changed_of_invalid hash (readStudentsPure (some c)) students
      _ s hmem hor]
    rfl
  · intro disk
    cases disk with
    | none => rfl
    | some c =>
        unfold read_students_csv readStudentsPure
        simp only
        cases hm : c.rows.mapM (parse_row c.header) with
        | none => rfl
        | some students => rfl

theorem claim_C10_witness :
    (read_students_csv (fun _ => 0)
      (some ⟨[sID, sName, sPort, sSubnet],
        [["s1".data, "n1".data, "".data, "".data]]⟩) true).2.2 = true ∧
    read_students_csv (fun _ => 0)
      (some ⟨[sID, sName, sPort, sSubnet],
        [["s1".data, "n1".data, "".data, "".data]]⟩) false
      = (readStudentsPure (some ⟨[sID, sName, sPort, sSubnet],
          [["s1".data, "n1".data, "".data, "".data]]⟩),
         some ⟨[sID, sName, sPort, sSubnet],
          [["s1".data, "n1".data, "".data, "".data]]⟩, false) :=
  ⟨(claim_C10 (fun _ => 0)).1 ⟨[sID, sName, sPort, sSubnet],
      [["s1".data, "n1".data, "".data, "".data]]⟩
      [⟨"s1".data, "n1".data, 0, none⟩]
      (by decide)
      ⟨⟨"s1".data, "n1".data, 0, none⟩, by decide, Or.inl rfl⟩,
   (claim_C10 (fun _ => 0)).2 _⟩

theorem eq_of_map_nodup {α β : Type} (f : α → β) {l : List α} (h : (l.map f).Nodup)
    {x y : α} (hx : x ∈ l) (hy : y ∈ l) (hf : f x = f y) : x = y := by
  obtain ⟨i, hi, rfl⟩ := List.mem_iff_getElem.mp hx
  obtain ⟨j, hj, rfl⟩ := List.mem_iff_getElem.mp hy
  have hlt_i : i < (l.map f).length := by simpa using hi
  have hlt_j : j < (l.map f).length := by simpa using hj
  have hget : (l.map f).get ⟨i, hlt_i⟩ = (l.map f).get ⟨j, hlt_j⟩ := by
    simp only [List.get_eq_getElem, List.getElem_map]
    exact hf
  have := congrArg Fin.val ((List.Nodup.get_inj_iff h).mp hget)
  simp only at this
  subst this
  rfl

theorem filter_length_le_one {α β : Type} [DecidableEq β] (f : α → β) (p : β)
    (q : α → Bool) (hq : ∀ x, q x = true → f x = p) :
    ∀ l : List α, (l.map f).Nodup → (l.filter q).length ≤ 1 := by
  intro l
  induction l with
  | nil => intro _; simp
  | cons a t ih =>
      intro hnd
      rw [List.map_cons, List.nodup_cons] at hnd
      rw [List.filter_cons]
      cases hqa : q a with
      | false => simpa using ih hnd.2
      | true =>
          simp only [if_true]
          have hft : t.filter q = [] := by
            rw [List.filter_eq_nil_iff]
            intro x hx hqx
            exact hnd.1 (List.mem_map.mpr ⟨x, hx, by rw [hq x hqx, ← hq a hqa]⟩)
          simp [hft]

/-- C3: running the reconciler (again) on a roster whose records all
already hold valid, uniquely-owned assignments produces no record changes
and skips the roster file write entirely. -/
theorem claim_C3 (hash : Str → Nat) (c : Csv) (batch : List Student)
    (hparse : c.rows.mapM (parse_row c.header) = some batch)
    (hvalid : ∀ s ∈ batch, s.port ≠ 0 ∧ ∃ v, s.subnet_id = some v ∧ v ≠ 0)
    (hports : (batch.map (·.port)).Nodup)
    (hsubs : (batch.map (·.subnet_id)).Nodup) :
    ensure_assignments hash batch (some c) = (batch, some c, false) := by
  have hex : readStudentsPure (some c) = batch := by
    unfold readStudentsPure
    simp only
    rw [hparse]
    rfl
  by_cases hne : batch = []
  · subst hne
    rfl
  · unfold ensure_assignments
    rw [if_neg hne]
    simp only
    rw [hex]
    have hkeep := ensure_loop_keeps_valid hash batch batch
      ⟨get_used_ports (some c), get_used_subnets (some c), ∅, ∅, false⟩
      (by
        intro s hs
        obtain ⟨hp0, v, hv, hv0⟩ := hvalid s hs
        refine ⟨hp0, ?_, ?_⟩
        · have hle := filter_length_le_one (·.port) s.port
            (fun t => 0 < t.port && t.port == s.port)
            (fun x hx => by
              rw [Bool.and_eq_true, beq_iff_eq] at hx
              exact hx.2) batch hports
          unfold port_counts
          omega
        · unfold existing_port_owner
          rw [find?_eq_some_unique hs
            (by simp [beq_iff_eq]; omega)
            (fun w hw hqw => by
              rw [Bool.and_eq_true, beq_iff_eq] at hqw
              exact eq_of_map_nodup (·.port) hports hw hs hqw.2)]
          rfl)
      (by
        intro s hs
        obtain ⟨hp0, v, hv, hv0⟩ := hvalid s hs
        refine ⟨v, hv, hv0, ?_, ?_⟩
        · have hle := filter_length_le_one (·.subnet_id) (some v)
            (fun t => t.subnet_id.getD 0 != 0 && t.subnet_id == some v)
            (fun x hx => by
              rw [Bool.and_eq_true, beq_iff_eq] at hx
              exact hx.2) batch hsubs
          unfold subnet_counts
          omega
        · unfold existing_subnet_owner
          rw [find?_eq_some_unique hs
            (by simp [hv, bne_iff_ne, hv0])
            (fun w hw hqw => by
              rw [Bool.and_eq_true, beq_iff_eq] at hqw
              exact eq_of_map_nodup (·.subnet_id) hsubs hw hs (hqw.2.trans hv.symm))]
          rfl)
      (by intro s _; exact Finset.not_mem_empty _)
      (by intro s _; exact Finset.not_mem_empty _)
      hports hsubs
    rw [hkeep.2]
    simp only [Bool.false_eq_true, if_false]
    rw [hkeep.1]

theorem claim_C3_witness :
    ensure_assignments (fun _ => 0)
      [⟨"s1".data, "n1".data, 2222, some 10⟩, ⟨"s2".data, "n2".data, 2223, some 20⟩]
      (some ⟨[sID, sName, sPort, sSubnet],
        [["s1".data, "n1".data, "2222".data, "10".data],
         ["s2".data, "n2".data, "2223".data, "20".data]]⟩)
    = ([⟨"s1".data, "n1".data, 2222, some 10⟩, ⟨"s2".data, "n2".data, 2223, some 20⟩],
       some ⟨[sID, sName, sPort, sSubnet],
        [["s1".data, "n1".data, "2222".data, "10".data],
         ["s2".data, "n2".data, "2223".data, "20".data]]⟩, false) :=
  claim_C3 (fun _ => 0) _ _ (by decide)
    (by decide)
    (by decide)
    (by decide)

/-- C2 (counterexample to the frozen claim): a record whose pre-existing
port is positive but below 2222 (here 100), and whose pre-existing subnet
is above 254 (here 300), is retained unchanged by a reconciler run — the
final roster then violates `port ≥ 2222` and `subnet_id ≤ 254`. -/
theorem claim_C2_counterexample :
    ensure_assignments (fun _ => 0) [⟨"s1".data, "n1".data, 100, some 300⟩]
      (some ⟨[sID, sName, sPort, sSubnet],
        [["s1".data, "n1".data, "100".data, "300".data]]⟩)
    = ([⟨"s1".data, "n1".data, 100, some 300⟩],
       some ⟨[sID, sName, sPort, sSubnet],
        [["s1".data, "n1".data, "100".data, "300".data]]⟩, false)
    ∧ ¬ (2222 ≤ 100 ∧ 300 ≤ 254) := by
  constructor
  · decide
  · decide

/-- C2 (amended): after every reconciler run each returned record has a
positive port and an assigned positive subnet; every port the run newly
assigned is `≥ 2222` and every subnet it newly assigned lies in `1..254`.
Pre-existing positive values outside those ranges may be retained. -/
theorem claim_C2 (hash : Str → Nat) (batch : List Student) (disk : Option Csv) :
    List.Forall₂ (fun s s' : Student =>
      s'.student_id = s.student_id ∧ s'.student_name = s.student_name ∧
      0 < s'.port ∧ (∃ v, s'.subnet_id = some v ∧ 0 < v) ∧
      (s'.port = s.port ∨ 2222 ≤ s'.port) ∧
      (s'.subnet_id = s.subnet_id ∨ ∃ v, s'.subnet_id = some v ∧ 1 ≤ v ∧ v ≤ 254))
      batch (ensure_assignments hash batch disk).1 := by
  by_cases hne : batch = []
  · subst hne
    exact List.Forall₂.nil
  · unfold ensure_assignments
    rw [if_neg hne]
    simp only
    split_ifs with hch
    · exact ensure_loop_record_props hash (readStudentsPure disk) batch _
    · exact ensure_loop_record_props hash (readStudentsPure disk) batch _

/-- C7 (counterexample to the frozen claim): a roster with an extra
`cohort` column holding `"alpha"` is rewritten by the reconciler (loading
with the default flag triggers the write); the rewritten file keeps the
`cohort` column but the record's value in it becomes the empty string —
the value is not preserved. -/
theorem claim_C7_counterexample :
    (read_students_csv (fun _ => 0)
      (some ⟨[sID, sName, sPort, sSubnet, "cohort".data],
        [["a1".data, "Alice".data, "".data, "".data, "alpha".data]]⟩) true).2.1
    = some ⟨[sID, sName, sPort, sSubnet, "cohort".data],
        [["a1".data, "Alice".data, "2222".data, "1".data, []]]⟩
    ∧ ([] : Str) ≠ "alpha".data := by
  constructor
  · decide
  · decide

/-- C7 (amended): a reconciler-triggered rewrite preserves every existing
column (in particular an unknown extra column survives in the header in
its position), but a record's value under a column outside
`student_id, student_name, port, subnet_id` is written as the empty
string, not the original value. -/
theorem claim_C7 (c : Csv) (students : List Student) (col : Str)
    (hcol : col ∈ c.header) :
    col ∈ (write_students_csv (some c) students).header ∧
    (col ∉ base_fields →
      ∀ row ∈ (write_students_csv (some c) students).rows,
        dictGet (write_students_csv (some c) students).header row col = some []) := by
  constructor
  · exact write_fieldnames_mem_of_header hcol
  · intro hnb row hrow
    unfold write_students_csv at hrow ⊢
    simp only at hrow ⊢
    obtain ⟨s, _, rfl⟩ := List.mem_map.mp hrow
    rw [dictGet_full_row (write_fieldnames_mem_of_header hcol)]
    have hcell : student_cell s col = [] := by
      unfold student_cell
      rw [if_neg (fun h => hnb (by rw [h]; simp [base_fields])),
        if_neg (fun h => hnb (by rw [h]; simp [base_fields])),
        if_neg (fun h => hnb (by rw [h]; simp [base_fields])),
        if_neg (fun h => hnb (by rw [h]; simp [base_fields]))]
    rw [hcell]

theorem claim_C7_witness :
    "cohort".data ∈ (write_students_csv
      (some ⟨[sID, sName, sPort, sSubnet, "cohort".data],
        [["a1".data, "Alice".data, "".data, "".data, "alpha".data]]⟩)
      [⟨"a1".data, "Alice".data, 2222, some 1⟩]).header ∧
    dictGet (write_students_csv
      (some ⟨[sID, sName, sPort, sSubnet, "cohort".data],
        [["a1".data, "Alice".data, "".data, "".data, "alpha".data]]⟩)
      [⟨"a1".data, "Alice".data, 2222, some 1⟩]).header
      ["a1".data, "Alice".data, "2222".data, "1".data, []]
      ("cohort".data) = some [] := by
  have h := claim_C7
    ⟨[sID, sName, sPort, sSubnet, "cohort".data],
      [["a1".data, "Alice".data, "".data, "".data, "alpha".data]]⟩
    [⟨"a1".data, "Alice".data, 2222, some 1⟩]
    ("cohort".data) (by decide)
  exact ⟨h.1, h.2 (by decide)
    ["a1".data, "Alice".data, "2222".data, "1".data, []] (by decide)⟩

theorem lookup_student_id {students : List Student} {e : Str}
    (h : e ∈ students.map (·.student_id)) :
    (lookup_student students e).student_id = e := by
  unfold lookup_student
  cases hf : students.reverse.find? (fun s => s.student_id == e) with
  | some w =>
      have := List.find?_some hf
      rw [beq_iff_eq] at this
      simp [this]
  | none =>
      exfalso
      rw [List.find?_eq_none] at hf
      obtain ⟨s, hs, rfl⟩ := List.mem_map.mp h
      exact hf s (List.mem_reverse.mpr hs) (by simp)

/-- C6 (counterexample to the frozen claim): with an empty roster the
orchestrator returns early — it issues no teardown for the running
environment `a` (which the claim's `to_remove` demands) and reports
failure even though every (vacuous) operation succeeded. -/
theorem claim_C6_counterexample :
    reconcile_exec [] ["a".data] (fun _ => true) (fun _ => true) = ([], false) ∧
    ¬ RuntimeOp.remove ("a".data)
        ∈ (reconcile_exec [] ["a".data] (fun _ => true) (fun _ => true)).1 := by
  constructor
  · rfl
  · intro h
    cases h

theorem mem_map_remove {sid : Str} {l : List Str} :
    RuntimeOp.remove sid ∈ l.map RuntimeOp.remove ↔ sid ∈ l := by
  rw [List.mem_map]
  constructor
  · rintro ⟨r, hr, he⟩
    cases he
    exact hr
  · intro h
    exact ⟨sid, h, rfl⟩

theorem not_remove_mem_map_add {sid : Str} {l : List Str} {f : Str → Student} :
    RuntimeOp.remove sid ∉ l.map (fun e => RuntimeOp.add (f e)) := by
  intro h
  obtain ⟨e, -, he⟩ := List.mem_map.mp h
  cases he

theorem mem_map_add {s : Student} {l : List Str} {f : Str → Student} :
    RuntimeOp.add s ∈ l.map (fun e => RuntimeOp.add (f e)) ↔ ∃ e ∈ l, f e = s := by
  rw [List.mem_map]
  constructor
  · rintro ⟨e, he, heq⟩
    rw [RuntimeOp.add.injEq] at heq
    exact ⟨e, he, heq⟩
  · rintro ⟨e, he, heq⟩
    exact ⟨e, he, by rw [heq]⟩

theorem not_add_mem_map_remove {s : Student} {l : List Str} :
    RuntimeOp.add s ∉ l.map RuntimeOp.remove := by
  intro h
  obtain ⟨e, -, he⟩ := List.mem_map.mp h
  cases he

/-- C6 (amended): for every *non-empty* resolved roster and set of running
ids, reconcile computes `to_add = roster_ids - running_ids` and
`to_remove = running_ids - roster_ids`, issues every teardown (by id only)
before any bring-up (which uses the resolved record), issues the same
commands regardless of per-student outcomes (continues past failures),
and reports success exactly when every individual operation succeeded. -/
theorem claim_C6 (students : List Student) (running : List Str)
    (tearOk : Str → Bool) (upOk : Student → Bool) (hne : students ≠ []) :
    (∀ sid, RuntimeOp.remove sid ∈ (reconcile_exec students running tearOk upOk).1
      ↔ (sid ∈ running ∧ sid ∉ students.map (·.student_id)))
    ∧ (∀ s, RuntimeOp.add s ∈ (reconcile_exec students running tearOk upOk).1
      ↔ (s.student_id ∈ students.map (·.student_id) ∧ s.student_id ∉ running ∧
          s = lookup_student students s.student_id))
    ∧ (∃ (rs : List Str) (adds : List Student),
        (reconcile_exec students running tearOk upOk).1
          = rs.map RuntimeOp.remove ++ adds.map RuntimeOp.add)
    ∧ ((reconcile_exec students running tearOk upOk).2 = true ↔
        ((∀ sid, RuntimeOp.remove sid ∈ (reconcile_exec students running tearOk upOk).1
            → tearOk sid = true) ∧
         (∀ s, RuntimeOp.add s ∈ (reconcile_exec students running tearOk upOk).1
            → upOk s = true)))
    ∧ (∀ (tearOk' : Str → Bool) (upOk' : Student → Bool),
        (reconcile_exec students running tearOk' upOk').1
          = (reconcile_exec students running tearOk upOk).1) := by
  have hmem_rem : ∀ sid,
      RuntimeOp.remove sid ∈ (reconcile_exec students running tearOk upOk).1
      ↔ (sid ∈ running ∧ sid ∉ students.map (·.student_id)) := by
    intro sid
    unfold reconcile_exec
    rw [if_neg hne]
    simp only
    rw [List.mem_append]
    constructor
    · rintro (h | h)
      · have hm := mem_map_remove.mp h
        rw [List.mem_filter, List.mem_dedup, decide_eq_true_eq, List.mem_dedup] at hm
        exact hm
      · exact absurd h not_remove_mem_map_add
    · intro hr
      apply Or.inl
      apply mem_map_remove.mpr
      rw [List.mem_filter, List.mem_dedup, decide_eq_true_eq, List.mem_dedup]
      exact hr
  have hmem_add : ∀ s,
      RuntimeOp.add s ∈ (reconcile_exec students running tearOk upOk).1
      ↔ (s.student_id ∈ students.map (·.student_id) ∧ s.student_id ∉ running ∧
          s = lookup_student students s.student_id) := by
    intro s
    unfold reconcile_exec
    rw [if_neg hne]
    simp only
    rw [List.mem_append]
    constructor
    · rintro (h | h)
      · exact absurd h not_add_mem_map_remove
      · obtain ⟨e, he, heq⟩ := mem_map_add.mp h
        rw [List.mem_filter, List.mem_dedup, decide_eq_true_eq] at he
        have hid : s.student_id = e := by
          rw [← heq]
          exact lookup_student_id he.1
        subst hid
        exact ⟨he.1, he.2, heq.symm⟩
    · rintro ⟨h1, h2, h3⟩
      apply Or.inr
      apply mem_map_add.mpr
      refine ⟨s.student_id, ?_, h3.symm⟩
      rw [List.mem_filter, List.mem_dedup, decide_eq_true_eq]
      exact ⟨h1, h2⟩
  refine ⟨hmem_rem, hmem_add, ?_, ?_, ?_⟩
  · refine ⟨running.dedup.filter
        (fun r => decide (r ∉ (students.map (·.student_id)).dedup)),
      ((students.map (·.student_id)).dedup.filter
        (fun e => decide (e ∉ running))).map (lookup_student students), ?_⟩
    unfold reconcile_exec
    rw [if_neg hne]
    simp only [List.map_map]
    rfl
  · unfold reconcile_exec
    rw [if_neg hne]
    simp only [Bool.and_eq_true, List.all_eq_true]
    constructor
    · rintro ⟨h1, h2⟩
      constructor
      · intro sid hsid
        rw [List.mem_append] at hsid
        rcases hsid with h | h
        · exact h1 sid (mem_map_remove.mp h)
        · exact absurd h not_remove_mem_map_add
      · intro s hs
        rw [List.mem_append] at hs
        rcases hs with h | h
        · exact absurd h not_add_mem_map_remove
        · obtain ⟨e, he, heq⟩ := mem_map_add.mp h
          rw [← heq]
          exact h2 e he
    · rintro ⟨h1, h2⟩
      constructor
      · intro r hr
        exact h1 r (List.mem_append.mpr (Or.inl (mem_map_remove.mpr hr)))
      · intro e he
        exact h2 (lookup_student students e)
          (List.mem_append.mpr (Or.inr (mem_map_add.mpr ⟨e, he, rfl⟩)))
  · intro tearOk' upOk'
    unfold reconcile_exec
    rw [if_neg hne, if_neg hne]

theorem claim_C6_witness :
    RuntimeOp.remove ("a".data)
      ∈ (reconcile_exec
          [⟨"b".data, "nb".data, 2222, some 1⟩, ⟨"c".data, "nc".data, 2223, some 2⟩,
           ⟨"d".data, "nd".data, 2224, some 3⟩]
          ["a".data, "b".data, "c".data] (fun _ => true) (fun _ => true)).1
    ∧ RuntimeOp.add ⟨"d".data, "nd".data, 2224, some 3⟩
      ∈ (reconcile_exec
          [⟨"b".data, "nb".data, 2222, some 1⟩, ⟨"c".data, "nc".data, 2223, some 2⟩,
           ⟨"d".data, "nd".data, 2224, some 3⟩]
          ["a".data, "b".data, "c".data] (fun _ => true) (fun _ => true)).1
    ∧ ¬ RuntimeOp.remove ("b".data)
      ∈ (reconcile_exec
          [⟨"b".data, "nb".data, 2222, some 1⟩, ⟨"c".data, "nc".data, 2223, some 2⟩,
           ⟨"d".data, "nd".data, 2224, some 3⟩]
          ["a".data, "b".data, "c".data] (fun _ => true) (fun _ => true)).1
    ∧ ¬ RuntimeOp.add ⟨"c".data, "nc".data, 2223, some 2⟩
      ∈ (reconcile_exec
          [⟨"b".data, "nb".data, 2222, some 1⟩, ⟨"c".data, "nc".data, 2223, some 2⟩,
           ⟨"d".data, "nd".data, 2224, some 3⟩]
          ["a".data, "b".data, "c".data] (fun _ => true) (fun _ => true)).1
    ∧ (reconcile_exec
          [⟨"b".data, "nb".data, 2222, some 1⟩, ⟨"c".data, "nc".data, 2223, some 2⟩,
           ⟨"d".data, "nd".data, 2224, some 3⟩]
          ["a".data, "b".data, "c".data] (fun _ => true) (fun _ => true)).2 = true := by
  have h := claim_C6
    [⟨"b".data, "nb".data, 2222, some 1⟩, ⟨"c".data, "nc".data, 2223, some 2⟩,
     ⟨"d".data, "nd".data, 2224, some 3⟩]
    ["a".data, "b".data, "c".data] (fun _ => true) (fun _ => true) (by decide)
  refine ⟨(h.1 _).mpr (by decide), (h.2.1 _).mpr (by decide), ?_, ?_, ?_⟩
  · intro hmem
    have := (h.1 _).mp hmem
    revert this
    decide
  · intro hmem
    have := (h.2.1 _).mp hmem
    revert this
    decide
  · exact h.2.2.2.1.mpr ⟨fun sid _ => rfl, fun s _ => rfl⟩

theorem option_mapM_some_forall {α β : Type} {f : α → Option β} :
    ∀ {l : List α} {out : List β}, l.mapM f = some out →
      ∀ x ∈ l, ∃ y, f x = some y := by
  intro l
  induction l with
  | nil => intro out _ x hx; cases hx
  | cons a t ih =>
      intro out h x hx
      rw [← List.mapM'_eq_mapM] at h
      simp only [List.mapM'] at h
      cases hfa : f a with
      | none => rw [hfa] at h; cases h
      | some b =>
          rw [hfa] at h
          simp only [Option.bind_eq_bind, Option.some_bind] at h
          cases hft : t.mapM' f with
          | none => rw [hft] at h; cases h
          | some bs =>
              rcases List.mem_cons.mp hx with rfl | hx'
              · exact ⟨b, hfa⟩
              · rw [List.mapM'_eq_mapM] at hft
                exact ih hft x hx'

theorem parse_row_header_mem {header row : List Str} {s : Student}
    (h : parse_row header row = some s) : sID ∈ header ∧ sName ∈ header := by
  unfold parse_row at h
  cases hid : dictGet header row sID with
  | none => rw [hid] at h; cases h
  | some i =>
      cases hname : dictGet header row sName with
      | none => rw [hid, hname] at h; cases h
      | some n =>
          exact ⟨dictGet_mem_of_some hid, dictGet_mem_of_some hname⟩

theorem forall₂_right_mem {R : Student → Student → Prop} :
    ∀ {l1 l2 : List Student}, List.Forall₂ R l1 l2 → ∀ {b}, b ∈ l2 → ∃ a, R a b := by
  intro l1 l2 h
  induction h with
  | nil => intro b hb; cases hb
  | cons hr _ ih =>
      intro b hb
      rcases List.mem_cons.mp hb with rfl | hb'
      · exact ⟨_, hr⟩
      · exact ih hb'

/-- C8: when the reconciler persists, it writes the merge of the updated
batch into the full on-disk roster, matching by `student_id`: a roster row
whose id is not in the batch keeps its record at its position, and a batch
record whose id is absent from the roster is appended as a new entry. -/
theorem claim_C8 (hash : Str → Nat) (batch : List Student) (disk : Option Csv)
    (hwrote : (ensure_assignments hash batch disk).2.2 = true) :
    ((ensure_assignments hash batch disk).2.1
      = some (write_students_csv disk
          (merge_students (readStudentsPure disk)
            (ensure_assignments hash batch disk).1)))
    ∧ (∀ (all updated : List Student) (i : Nat) (hi : i < all.length),
        (all.get ⟨i, hi⟩).student_id ∉ updated.map (·.student_id) →
        (merge_students all updated)[i]? = some (all.get ⟨i, hi⟩))
    ∧ (∀ (all updated : List Student) (u : Student), u ∈ updated →
        u.student_id ∉ all.map (·.student_id) →
        u ∈ merge_students all updated) := by
  refine ⟨?_, ?_, ?_⟩
  · by_cases hne : batch = []
    · subst hne
      unfold ensure_assignments at hwrote
      rw [if_pos rfl] at hwrote
      cases hwrote
    · unfold ensure_assignments at hwrote ⊢
      rw [if_neg hne] at hwrote ⊢
      simp only at hwrote ⊢
      split_ifs at hwrote ⊢ with hch
      all_goals rfl
  · intro all updated i hi hnot
    unfold merge_students
    simp only
    rw [List.getElem?_append, if_pos (by simpa using hi)]
    rw [List.getElem?_map]
    have hget : all[i]? = some (all.get ⟨i, hi⟩) := by
      rw [List.getElem?_eq_getElem hi]
      rfl
    rw [hget, Option.map_some']
    have hfind : updated.reverse.find?
        (fun u => u.student_id == (all.get ⟨i, hi⟩).student_id) = none := by
      rw [List.find?_eq_none]
      intro w hw
      rw [List.mem_reverse] at hw
      simp only [beq_iff_eq]
      intro he
      exact hnot (List.mem_map.mpr ⟨w, hw, he⟩)
    rw [List.get_eq_getElem] at hfind ⊢
    rw [hfind]
  · intro all updated u hu hnot
    unfold merge_students
    simp only
    apply List.mem_append.mpr
    refine Or.inr (List.mem_filter.mpr ⟨hu, ?_⟩)
    simpa using hnot

theorem claim_C8_witness :
    ((ensure_assignments (fun _ => 0) [⟨"b1".data, "nb".data, 2222, none⟩]
        (some ⟨[sID, sName, sPort, sSubnet],
          [["a1".data, "Alice".data, "2222".data, "7".data]]⟩)).2.1
      = some (write_students_csv
          (some ⟨[sID, sName, sPort, sSubnet],
            [["a1".data, "Alice".data, "2222".data, "7".data]]⟩)
          (merge_students
            (readStudentsPure (some ⟨[sID, sName, sPort, sSubnet],
              [["a1".data, "Alice".data, "2222".data, "7".data]]⟩))
            (ensure_assignments (fun _ => 0) [⟨"b1".data, "nb".data, 2222, none⟩]
              (some ⟨[sID, sName, sPort, sSubnet],
                [["a1".data, "Alice".data, "2222".data, "7".data]]⟩)).1)))
    ∧ readStudentsPure (ensure_assignments (fun _ => 0)
        [⟨"b1".data, "nb".data, 2222, none⟩]
        (some ⟨[sID, sName, sPort, sSubnet],
          [["a1".data, "Alice".data, "2222".data, "7".data]]⟩)).2.1
      = [⟨"a1".data, "Alice".data, 2222, some 7⟩,
         ⟨"b1".data, "nb".data, 2223, some 1⟩] :=
  ⟨(claim_C8 (fun _ => 0) [⟨"b1".data, "nb".data, 2222, none⟩]
      (some ⟨[sID, sName, sPort, sSubnet],
        [["a1".data, "Alice".data, "2222".data, "7".data]]⟩)
      (by decide)).1,
   by decide⟩

/-- C1 (counterexample to the frozen claim): with a batch that is only a
subset of the roster (here a single new student `c1`), two roster rows
`a1`/`b1` that share port 2222 are left sharing it in the final persisted
roster — the reconciler only heals values held by records in the batch. -/
theorem claim_C1_counterexample :
    readStudentsPure (ensure_assignments (fun _ => 0)
        [⟨"c1".data, "nc".data, 0, none⟩]
        (some ⟨[sID, sName, sPort, sSubnet],
          [["a1".data, "na".data, "2222".data, "10".data],
           ["b1".data, "nb".data, "2222".data, "20".data]]⟩)).2.1
      = [⟨"a1".data, "na".data, 2222, some 10⟩,
         ⟨"b1".data, "nb".data, 2222, some 20⟩,
         ⟨"c1".data, "nc".data, 2223, some 1⟩]
    ∧ ¬ (([⟨"a1".data, "na".data, 2222, some 10⟩,
          ⟨"b1".data, "nb".data, 2222, some 20⟩,
          ⟨"c1".data, "nc".data, 2223, some 1⟩] : List Student).map
            (·.port)).Nodup := by
  constructor
  · decide
  · decide

/-- C1 (amended): when the batch is the *entire* successfully parsed
on-disk roster, student ids are pairwise distinct, and the roster has at
most 126 rows (so no subnet probe ever degenerates), the final persisted
roster contains no two records with the same port and no two records with
the same subnet. -/
theorem claim_C1 (hash : Str → Nat) (c : Csv) (batch : List Student)
    (hparse : c.rows.mapM (parse_row c.header) = some batch)
    (hids : (batch.map (·.student_id)).Nodup)
    (hlen : c.rows.length ≤ 126) :
    ∃ c', (ensure_assignments hash batch (some c)).2.1 = some c' ∧
      ((readStudentsPure (some c')).map (·.port)).Nodup ∧
      ((readStudentsPure (some c')).map (·.subnet_id)).Nodup := by
  have hex : readStudentsPure (some c) = batch := by
    unfold readStudentsPure
    simp only
    rw [hparse]
    rfl
  have hblen : batch.length = c.rows.length := option_mapM_length hparse
  by_cases hne : batch = []
  · subst hne
    refine ⟨c, rfl, ?_, ?_⟩
    · rw [hex]
      exact List.nodup_nil
    · rw [hex]
      exact List.nodup_nil
  · unfold ensure_assignments
    rw [if_neg hne]
    simp only
    rw [hex]
    have hcap : (get_used_subnets (some c)).card + batch.length ≤ 253 := by
      have := get_used_subnets_card_le c
      omega
    have hports := ensure_loop_ports_nodup hash batch batch
      ⟨get_used_ports (some c), get_used_subnets (some c), ∅, ∅, false⟩
    have hsubs := ensure_loop_subnets_nodup hash batch batch
      ⟨get_used_ports (some c), get_used_subnets (some c), ∅, ∅, false⟩
      (Finset.empty_subset _) hcap
    have hprops := ensure_loop_record_props hash batch batch
      ⟨get_used_ports (some c), get_used_subnets (some c), ∅, ∅, false⟩
    split_ifs with hch
    · -- a write happened: final roster is the rewritten merge
      have hfid : List.Forall₂ (fun a u : Student => u.student_id = a.student_id)
          batch (ensure_loop hash batch batch
            ⟨get_used_ports (some c), get_used_subnets (some c), ∅, ∅, false⟩).1 :=
        hprops.imp (fun _ _ h => h.1)
      rw [merge_students_eq_updated hfid hids]
      obtain ⟨row, hrow⟩ : ∃ row, row ∈ c.rows := by
        cases hr : c.rows with
        | nil =>
            exfalso
            rw [hr] at hblen
            simp at hblen
            exact hne hblen
        | cons r t => exact ⟨r, by simp⟩
      obtain ⟨y, hy⟩ := option_mapM_some_forall hparse row hrow
      obtain ⟨hidh, hnameh⟩ := parse_row_header_mem hy
      have hok : ∀ s ∈ (ensure_loop hash batch batch
          ⟨get_used_ports (some c), get_used_subnets (some c), ∅, ∅, false⟩).1,
          0 < s.port ∧ ∃ v, s.subnet_id = some v ∧ 0 < v := by
        intro s hs
        obtain ⟨a, ha⟩ := forall₂_right_mem hprops hs
        exact ⟨ha.2.2.1, ha.2.2.2.1⟩
      refine ⟨_, rfl, ?_, ?_⟩
      · rw [readStudentsPure_write (some c) _
          (write_fieldnames_mem_of_header hidh)
          (write_fieldnames_mem_of_header hnameh) hok, List.map_map]
        exact hports.2
      · rw [readStudentsPure_write (some c) _
          (write_fieldnames_mem_of_header hidh)
          (write_fieldnames_mem_of_header hnameh) hok, List.map_map]
        exact hsubs.2
    · -- no write: the roster on disk was already unique
      rw [Bool.not_eq_true] at hch
      obtain ⟨-, hout⟩ := ensure_loop_unchanged hash batch batch
        ⟨get_used_ports (some c), get_used_subnets (some c), ∅, ∅, false⟩ hch
      refine ⟨c, rfl, ?_, ?_⟩
      · rw [hex, ← hout]
        exact hports.2
      · rw [hex, ← hout]
        exact hsubs.2

/-- C1 witness: the duplicate-detection scenario — two students sharing
port 2222 on disk, reprocessed as the full roster, end with distinct ports
and distinct subnets. -/
theorem claim_C1_witness :
    ∃ c', (ensure_assignments (fun _ => 0)
        [⟨"a1".data, "na".data, 2222, some 10⟩, ⟨"b1".data, "nb".data, 2222, some 20⟩]
        (some ⟨[sID, sName, sPort, sSubnet],
          [["a1".data, "na".data, "2222".data, "10".data],
           ["b1".data, "nb".data, "2222".data, "20".data]]⟩)).2.1 = some c' ∧
      ((readStudentsPure (some c')).map (·.port)).Nodup ∧
      ((readStudentsPure (some c')).map (·.subnet_id)).Nodup :=
  claim_C1 (fun _ => 0)
    ⟨[sID, sName, sPort, sSubnet],
      [["a1".data, "na".data, "2222".data, "10".data],
       ["b1".data, "nb".data, "2222".data, "20".data]]⟩
    [⟨"a1".data, "na".data, 2222, some 10⟩, ⟨"b1".data, "nb".data, 2222, some 20⟩]
    (by decide) (by decide) (by decide)

end LabMan
